import Mathlib

/-!
The goapp logging helpers: call-site name classification, the log filter gate
and the caller format.

A shallow embedding of the pure parts of `app/logx/logx.go`,
`app/logx/logx_development.go`, `app/mlog/mcaller_info.go`,
`app/mlog/mpackage_info.go` and `app/mlog/mlog.go`.

Modelling conventions.

* A Go `string` is modelled as the list of its characters (`Str`).  Every
  needle the embedded code searches for is an ASCII literal, and every slice
  bound is derived from the position of such a needle, so cutting the character
  list at a character position is the same cut as the byte slice of the source.
  The one bound that is not, `len(s)-1` in `GetNestingLevel`, is noted there.
* What the Go runtime reports about the call stack (`runtime.Caller`,
  `runtime.Callers`, `runtime.FuncForPC`) is an argument of the embedded
  function.
* What the operating system and the JSON library answer is the `Host` argument
  of the gate operations; a package variable or a receiver that the code
  changes is given back next to the result, also when the code aborts.
* A run-time abort (slice bound or index out of range, explicit `panic`) is the
  `error` case of `Except Panic`.
* A Go `map[string]V` is modelled as an association list read with a first-match
  lookup.  A read of a `nil` map is the read of an empty one; a write to a `nil`
  map aborts, and the one operation that writes, `SaveFilters`, is told whether
  the map is `nil`.
-/

set_option autoImplicit false
set_option maxRecDepth 100000

/-- A Go string, as the list of its characters. -/
abbrev Str := List Char

/-- The ways in which the embedded code can abort. -/
inductive Panic where
  /-- Slice bounds out of range, as in `s[lo:]` with `lo < 0`. -/
  | sliceBounds
  /-- Index out of range, as in `parts[1]` on a one-element slice. -/
  | indexRange
  /-- An explicit `panic(msg)` statement. -/
  | explicit (msg : String)
  /-- Assignment to an entry in a `nil` map. -/
  | nilMap
  deriving DecidableEq, Repr

deriving instance DecidableEq for Except

/-! ## The Go built-ins used by the code -/

namespace strings

/-- The call `strings.Count(s, sep)` for a one-character separator literal. -/
def Count (s : Str) (sep : Char) : Int := (s.count sep : Nat)

/-- The call `strings.LastIndex(s, sep)` (and `strings.LastIndexByte`) for a
one-character separator: the position of the last occurrence, or `-1`. -/
def LastIndex : Str → Char → Int
  | [], _ => -1
  | c :: cs, sep =>
    if 0 ≤ LastIndex cs sep then LastIndex cs sep + 1
    else if c = sep then 0 else -1

/-- The call `strings.Split(s, sep)` for a one-character separator: the pieces
between the separators; never an empty slice. -/
def Split : Str → Char → List Str
  | [], _ => [[]]
  | c :: cs, sep =>
    if c = sep then [] :: Split cs sep
    else
      match Split cs sep with
      | [] => [[c]]
      | piece :: rest => (c :: piece) :: rest

/-- The call `strings.Contains(s, substr)`: `substr` occurs somewhere in `s`. -/
def Contains : Str → Str → Bool
  | [], substr => substr.isEmpty
  | c :: cs, substr => substr.isPrefixOf (c :: cs) || Contains cs substr

/-- The call `strings.Replace(s, old, new, 1)`: the first occurrence of `old`
replaced by `new`, or `s` itself when there is none. -/
def Replace1 : Str → Str → Str → Str
  | [], old, new => if old.isEmpty then new else []
  | c :: cs, old, new =>
    if old.isPrefixOf (c :: cs) then new ++ (c :: cs).drop old.length
    else c :: Replace1 cs old new

/-- The call `strings.IndexByte(s, c)`: the position of the first occurrence of
`c`, or `-1`. -/
def IndexByte : Str → Char → Int
  | [], _ => -1
  | c :: cs, b =>
    if c = b then 0
    else if 0 ≤ IndexByte cs b then IndexByte cs b + 1 else -1

/-- The call `strings.HasPrefix(s, pre)`. -/
def HasPrefix (s pre : Str) : Bool := pre.isPrefixOf s

/-- The call `strings.Trim(s, cutset)`: `s` without its leading and trailing
characters that belong to `cutset`. -/
def Trim (s cutset : Str) : Str :=
  ((s.dropWhile (fun c => cutset.contains c)).reverse.dropWhile
    (fun c => cutset.contains c)).reverse

/-- The call `strings.Index(s, substr)`: the position of the first occurrence
of `substr`, or `-1`. -/
def Index : Str → Str → Int
  | [], substr => if substr.isEmpty then 0 else -1
  | c :: cs, substr =>
    if substr.isPrefixOf (c :: cs) then 0
    else if 0 ≤ Index cs substr then Index cs substr + 1 else -1

/-- The call `strings.TrimSuffix(s, suffix)`. -/
def TrimSuffix (s suffix : Str) : Str :=
  if suffix.isSuffixOf s then s.take (s.length - suffix.length) else s

/-- The call `strings.EqualFold(s, t)` for a `t` made of ASCII letters other
than `k` and `s`, as the level names compared in `parseLevel` are: for those
letters the simple Unicode case folding of Go relates only the upper-case and
the lower-case ASCII letter, so that the two strings are equal under folding
exactly when they are equal once their ASCII letters are in lower case. -/
def EqualFold (s t : Str) : Bool := s.map Char.toLower == t.map Char.toLower

end strings

/-- The call `re.ReplaceAllString(s, "")` for a pattern that is the literal
text `pat` (not empty): every occurrence of `pat`, found from the left and
without overlap, is removed.  `skip` counts the characters of a match that are
still to be dropped. -/
def removeLiteral (pat : Str) : Str → Nat → Str
  | [], _ => []
  | _ :: cs, skip + 1 => removeLiteral pat cs skip
  | c :: cs, 0 =>
    if pat.isPrefixOf (c :: cs) then removeLiteral pat cs (pat.length - 1)
    else c :: removeLiteral pat cs 0

/-- The call `re.ReplaceAllString(s, "")` for the pattern `\)$`: a `)` at the
very end of the text is removed. -/
def removeFinalParen (s : Str) : Str :=
  if s.getLast? = some ')' then s.dropLast else s

/-- The slice expression `s[lo:]`. -/
def sliceFrom (s : Str) (lo : Int) : Except Panic Str :=
  if 0 ≤ lo ∧ lo ≤ (s.length : Int) then .ok (s.drop lo.toNat) else .error .sliceBounds

/-- The slice expression `s[:hi]`. -/
def sliceTo (s : Str) (hi : Int) : Except Panic Str :=
  if 0 ≤ hi ∧ hi ≤ (s.length : Int) then .ok (s.take hi.toNat) else .error .sliceBounds

/-- The slice expression `s[lo:hi]`. -/
def sliceRange (s : Str) (lo hi : Int) : Except Panic Str :=
  if 0 ≤ lo ∧ lo ≤ hi ∧ hi ≤ (s.length : Int) then .ok ((s.take hi.toNat).drop lo.toNat)
  else .error .sliceBounds

/-- The index expression `xs[i]` on a slice of strings. -/
def indexAt (xs : List Str) (i : Nat) : Except Panic Str :=
  match xs.get? i with
  | some x => .ok x
  | none => .error .indexRange

/-! ## `app/logx/logx.go`: `getNames` -/

namespace logx

/-- The character class `[-\w]` of the pattern in `getNames`. -/
def isDashOrWord (c : Char) : Bool := c = '-' || c.isAlphanum || c = '_'

/-- The character class `[A-Za-z]` of the pattern in `getNames`. -/
def isLetter (c : Char) : Bool := c.isAlpha

/-- The text after a match of the pattern `^[-\w]+\.[A-Za-z]+/` at the start of
`s`, or `none` when the pattern does not match.  Neither class contains the
character that must follow its run (`.` and `/`), so each run is the whole
maximal run and the match, when there is one, is unique. -/
def hostMatch (s : Str) : Option Str :=
  if (s.takeWhile isDashOrWord).isEmpty then none
  else
    match s.dropWhile isDashOrWord with
    | '.' :: r =>
      if (r.takeWhile isLetter).isEmpty then none
      else
        match r.dropWhile isLetter with
        | '/' :: rest => some rest
        | _ => none
    | _ => none

/-- The statement `cleaned := re.ReplaceAllString(fq, "")`: the pattern is
anchored at the start, so at most the one leading match is removed. -/
def cleanHost (fq : Str) : Str := (hostMatch fq).getD fq

/-- The function `getNames` of `logx.go`: package, struct and function name of
a fully qualified run-time name. -/
def getNames (fq : Str) : Except Panic (Str × Str × Str) :=
  let dotCnt := strings.Count fq '.'
  let index := strings.LastIndex fq '.'
  if dotCnt = 1 then do
    -- A function
    let nameFunc ← sliceFrom fq (index + 1)
    let namePkg ← sliceTo fq index
    pure (namePkg, [], nameFunc)
  else if dotCnt = 2 then do
    -- A method
    let nameFunc ← sliceFrom fq (index + 1)
    let otherPart ← sliceTo fq index
    let index := strings.LastIndex otherPart '.'
    let nameStruct ← sliceFrom otherPart index
    let namePkg ← sliceTo otherPart index
    pure (namePkg, nameStruct, nameFunc)
  else do
    let cleaned := cleanHost fq
    let parts := strings.Split cleaned '.'
    let part0 ← indexAt parts 0
    let namePkg ← sliceFrom part0 (strings.LastIndex part0 '/')
    let nameStruct ← indexAt parts 1
    if parts.length = 3 then do
      let nameFunc ← indexAt parts 2
      pure (namePkg, nameStruct, nameFunc)
    else if parts.length = 4 then do
      let part2 ← indexAt parts 2
      let part3 ← indexAt parts 3
      pure (namePkg, nameStruct, part2 ++ ['.'] ++ part3)
    else
      .error (.explicit "WTF")

/-- The closure name quoted in the comment of the default branch of `getNames`. -/
def closureName : Str :=
  "github.com/lordofscripts/caesardisk/cmd/gui-app/gui.(*CipherModeGadget).Define.func1".toList

end logx

/-! ## `app/logx/logx.go`: the filter gate -/

/-- The two-result map read `v, ok := m[k]`: the stored value and `true`, or
the zero value and `false` when the key is absent. -/
def mapGet {V : Type} (m : List (Str × V)) (k : Str) (zero : V) : V × Bool :=
  match m.lookup k with
  | some v => (v, true)
  | none => (zero, false)

namespace logx

/-- The struct `LogFilter`. -/
structure LogFilter where
  LogLevel : Str
  Specifically : Str
  deriving DecidableEq, Repr

/-- The struct `LogGate`, without its two file handles. -/
structure LogGate where
  AppName : Str
  CurrentLevel : Str
  Filters : List (Str × LogFilter)
  configSub : Str
  deriving DecidableEq, Repr

/-- The zero value of `LogFilter`. -/
def LogFilter.zero : LogFilter := ⟨[], []⟩

/-- The method `(*LogGate).IsFiltered`: `true` when the package is black-listed. -/
def LogGate.IsFiltered (l : LogGate) (packageName : Str) : Bool :=
  let (filter, ok) := mapGet l.Filters packageName LogFilter.zero
  if !ok || (ok && filter.LogLevel == []) then true
  else false

/-- The method `(*LogGate).IsFilteredObject`: `true` when the object of the
package is black-listed. -/
def LogGate.IsFilteredObject (l : LogGate) (packageName objectName : Str) : Bool :=
  let blackListed := true
  let (filter, ok) := mapGet l.Filters packageName LogFilter.zero
  if ok then
    if filter.Specifically == "*".toList then false
    else if filter.LogLevel != [] && strings.Contains filter.Specifically objectName then false
    else blackListed
  else blackListed

/-- A gate whose rule mapping is `rules` and whose other fields are empty. -/
def gateOf (rules : List (Str × LogFilter)) : LogGate := ⟨[], [], rules, []⟩

end logx

/-- The map write `m[k] = v` on a map that has been made: the entry of `k` is
replaced or added, the other entries stay. -/
def mapSet {V : Type} (m : List (Str × V)) (k : Str) (v : V) : List (Str × V) :=
  (k, v) :: m.filter (fun e => e.1 != k)

namespace logx

/-- What the operating system and the libraries answer to the gate: each field
stands for one external call, and a Go `error` is the text of its message. -/
structure Host where
  /-- The value `os.Args[0]`. -/
  args0 : Str
  /-- The call `os.UserConfigDir()`. -/
  userConfigDir : Except Str Str
  /-- The call `filepath.Join(a, b, c)`. -/
  join : Str → Str → Str → Str
  /-- The call `path.Base(p)`. -/
  base : Str → Str
  /-- The call `os.ReadFile(name)`. -/
  readFile : Str → Except Str Str
  /-- The call `json.Unmarshal(data, &all)` on a zero `LogGate`. -/
  unmarshal : Str → Except Str LogGate
  /-- The JSON encoding `encoder.Encode(l)` into the buffer. -/
  encode : LogGate → Except Str Str
  /-- Whether `os.Create(name)` succeeds. -/
  create : Str → Bool

/-- The function `newLogGate`. -/
def newLogGate : LogGate := ⟨[], [], [], []⟩

/-- The method `(*LogGate).getAppName`. -/
def LogGate.getAppName (l : LogGate) (h : Host) : Str :=
  if l.AppName ≠ [] then l.AppName
  else
    let appName := h.args0
    strings.TrimSuffix appName ".exe".toList

/-- The method `(*LogGate).getLogFilterFile`; it panics with the error of
`os.UserConfigDir()`. -/
def LogGate.getLogFilterFile (l : LogGate) (h : Host) : Except Panic Str :=
  match h.userConfigDir with
  | .error err => .error (.explicit (String.mk err))
  | .ok usrConfig =>
    let basename := l.getAppName h ++ ".logfilter".toList
    .ok (h.join usrConfig l.configSub basename)

/-- The method `(*LogGate).LoadFilters`: the gate afterwards, and either the
abort or the returned error (`none` for `nil`).  What it prints is left out. -/
def LogGate.LoadFilters (l : LogGate) (h : Host) : LogGate × Except Panic (Option Str) :=
  match l.getLogFilterFile h with
  | .error e => (l, .error e)
  | .ok file =>
    match h.readFile file with
    | .error err => (l, .ok (some err))
    | .ok jsonDataBytes =>
      match h.unmarshal jsonDataBytes with
      | .error err => (l, .ok (some err))
      | .ok all => ({ l with Filters := all.Filters }, .ok none)

/-- The rule that `SaveFilters` writes for `main`. -/
def seedMain : LogFilter := ⟨"debug".toList, []⟩

/-- The rule that `SaveFilters` writes for `lordofscripts/demo`. -/
def seedDemo : LogFilter := ⟨"info".toList, "StructA,StructB".toList⟩

/-- The method `(*LogGate).SaveFilters`: the gate afterwards, and either the
abort or the file that is written, as its name and content (`none` when
nothing is written).  `filtersNil` tells whether the map `l.Filters` is `nil`,
as it is after the load of a file without `filters`, and not after
`newLogGate`: the first map write then aborts.  What it logs is left out. -/
def LogGate.SaveFilters (l : LogGate) (h : Host) (filtersNil : Bool) :
    LogGate × Except Panic (Option (Str × Str)) :=
  if filtersNil then (l, .error .nilMap)
  else
    let l := { l with Filters := mapSet l.Filters "main".toList seedMain }
    let l := { l with Filters := mapSet l.Filters "lordofscripts/demo".toList seedDemo }
    match h.encode l with
    | .error _ => (l, .ok none)
    | .ok buffer =>
      match l.getLogFilterFile h with
      | .error e => (l, .error e)
      | .ok file => if h.create file then (l, .ok (some (file, buffer))) else (l, .ok none)

/-- The package variables `initializedLogGate` and `instanceLogGate`; the
pointer `instanceLogGate` is `none` when it is `nil`. -/
structure GateState where
  initializedLogGate : Nat
  instanceLogGate : Option LogGate
  deriving DecidableEq, Repr

/-- The package variables when the program starts. -/
def GateState.start : GateState := ⟨0, none⟩

/-- The function `GetLogGateInstance` run on its own (the mutex is free):
`names` is `none` for a call without arguments, where the variadic parameter
is `nil`.  The result is the package variables afterwards, and either the
abort or the returned pointer.  What it logs is left out. -/
def GetLogGateInstance (h : Host) (names : Option (List Str)) (st : GateState) :
    GateState × Except Panic (Option LogGate) :=
  if st.initializedLogGate = 1 then (st, .ok st.instanceLogGate)
  else if st.initializedLogGate = 0 ∧ st.instanceLogGate = none then
    let applicationName := h.base h.args0
    let groupName : Str := []
    let chosen : Except Panic (Str × Str) :=
      match names with
      | none => pure (applicationName, groupName)
      | some names => do
        let name0 ← indexAt names 0
        let applicationName := if name0 ≠ [] then name0 else applicationName
        let name1 ← indexAt names 1
        let groupName := if name1 ≠ [] then name1 else groupName
        pure (applicationName, groupName)
    match chosen with
    | .error e => (st, .error e)
    | .ok (applicationName, groupName) =>
      let instanceLogGate := { newLogGate with AppName := applicationName, configSub := groupName }
      -- initializedLogGate.Store(1) comes before the load
      let (instanceLogGate, loaded) := instanceLogGate.LoadFilters h
      match loaded with
      | .error e => (⟨1, some instanceLogGate⟩, .error e)
      | .ok _ => (⟨1, some instanceLogGate⟩, .ok (some instanceLogGate))
  else (st, .ok st.instanceLogGate)

/-- A series of calls of `GetLogGateInstance`, one after the other: the package
variables at the end and the outcome of every call. -/
def callSeries (st : GateState) :
    List (Host × Option (List Str)) → GateState × List (Except Panic (Option LogGate))
  | [] => (st, [])
  | (h, names) :: rest =>
    let (st1, r) := GetLogGateInstance h names st
    let (st2, rs) := callSeries st1 rest
    (st2, r :: rs)

/-- The function `getCallerFlexFiltered` of `logx_development.go`, from the
results of `runtime.Caller(stackIdx)` and `runtime.FuncForPC(pc)` on: `caller`
is `none` unless `ok && details != nil`, and else holds `details.Name()`;
`gate` is the gate `SingLogGate`. -/
def getCallerFlexFiltered (gate : LogGate) (caller : Option Str) :
    Except Panic (Str × Str × Bool) :=
  match caller with
  | some info => do
    let lastSlash := strings.LastIndex info '/'
    let lastSlash := if lastSlash < 0 then 0 else lastSlash
    let tail ← sliceFrom info lastSlash
    let lastDot := strings.LastIndex tail '.' + lastSlash
    let packageS ← sliceTo info lastDot
    let packageS :=
      if strings.HasPrefix packageS "command-line".toList then "main".toList else packageS
    let idx := strings.Index packageS ".(".toList
    let (packageS, objectS) ←
      if idx ≠ -1 then do
        let objectS ← sliceFrom packageS (idx + 1)
        let packageS ← sliceTo packageS idx
        let objectS := removeLiteral "(*".toList objectS 0
        let objectS := removeLiteral ".(".toList objectS 0
        let objectS := removeFinalParen objectS
        pure (packageS, objectS)
      else pure (packageS, ([] : Str))
    -- Filtered out? don't bother with the rest
    if gate.IsFilteredObject packageS objectS then pure ([], [], false)
    else do
      -- Shortened package name for Log prefix
      let shortPkg ←
        if strings.Contains packageS "/".toList then
          sliceFrom packageS (strings.LastIndex packageS '/' + 1)
        else pure packageS
      let funcS ←
        if strings.Contains info ".init.".toList then sliceTo info lastDot
        else do
          let funcS ← sliceFrom info (lastDot + 1)
          pure (if objectS ≠ [] then ".".toList ++ funcS else funcS)
      pure (shortPkg ++ ":".toList ++ objectS ++ funcS ++ "()".toList, shortPkg, true)
  | none => pure ([], [], false)

end logx

/-! ## `app/mlog/mcaller_info.go`: `CallerInfo.StringF` -/

namespace strconv

/-- The call `strconv.Itoa(n)`: the decimal numeral of `n`. -/
def Itoa (n : Int) : Str :=
  if n < 0 then '-' :: Nat.toDigits 10 n.natAbs else Nat.toDigits 10 n.natAbs

end strconv

namespace mlog

/-- The struct `CallerInfo`; `struct` is its field `structure`, a reserved word
here. -/
structure CallerInfo where
  packageN : Str
  struct : Str
  function : Str
  filename : Str
  lineno : Int
  deriving DecidableEq, Repr

/-- The constant `IFUNC`. -/
def IFUNC : Str := "()".toList

/-- The constant `ISTRU`. -/
def ISTRU : Str := "\x7b\x7d".toList

/-- The method `(*CallerInfo).StringF`. -/
def CallerInfo.StringF (c : CallerInfo) (format : Str) : Str :=
  let out := format
  -- macro replacements
  let out := strings.Replace1 out "%A".toList "%P".toList
  let out := strings.Replace1 out "%B".toList "%P.%F#%L".toList
  let out := strings.Replace1 out "%C".toList "%P.%S.%M#%L".toList
  let out := strings.Replace1 out "%c".toList "%p.%S.%M#%L".toList
  let struN : Str := if c.struct.length > 0 then c.struct ++ ISTRU else []
  -- atomic replacements
  let out := strings.Replace1 out "%P".toList c.packageN
  let out := strings.Replace1 out "%S".toList struN
  let out := strings.Replace1 out "%F".toList (c.function ++ IFUNC)
  let out := strings.Replace1 out "%M".toList (c.function ++ IFUNC)
  let out := strings.Replace1 out "%L".toList (strconv.Itoa c.lineno)
  if strings.Contains out "%p".toList && strings.LastIndex c.packageN '/' > 0 then
    -- the slice `c.packageN[idx+1:]` is in range: `idx` is a position of `c.packageN`
    let pname := c.packageN.drop (strings.LastIndex c.packageN '/' + 1).toNat
    strings.Replace1 out "%p".toList pname
  else out

/-- The method `(*CallerInfo).ObjectInfo`. -/
def CallerInfo.ObjectInfo (c : CallerInfo) : Str :=
  let SEP : Str := ".".toList
  -- clean package name
  let sb := c.packageN ++ SEP
  -- object if any (a method info)
  let sb := if c.struct.length > 0 then sb ++ (c.struct ++ "\x7b\x7d.".toList) else sb
  -- function or method
  sb ++ (c.function ++ "()".toList)

/-- The method `(*CallerInfo).String`. -/
def CallerInfo.String (c : CallerInfo) : Str :=
  if c.struct.length = 0 then c.StringF "%B".toList
  else c.StringF "%c".toList

/-- The ten two-character tokens that `StringF` looks for. -/
def formatTokens : List Str :=
  ["%A".toList, "%B".toList, "%C".toList, "%c".toList, "%P".toList, "%S".toList,
    "%F".toList, "%M".toList, "%L".toList, "%p".toList]

/-- The function `RetrieveCallerInfo`, from the results of
`runtime.Caller(frame)` on: `caller` is `none` when the call reports `ok ==
false`, and else holds the name `runtime.FuncForPC(pc).Name()` of the function
at the frame, the file name and the line number. -/
def RetrieveCallerInfo (caller : Option (Str × Str × Int)) :
    Except Panic (Option CallerInfo) :=
  match caller with
  | some (funcName, fileName, lineNo) => do
    let lastSlash := strings.LastIndex funcName '/'
    let lastSlash := if lastSlash < 0 then 0 else lastSlash
    let tail ← sliceFrom funcName lastSlash
    let lastDot := strings.LastIndex tail '.' + lastSlash
    let head ← sliceTo funcName lastDot
    let idx := strings.IndexByte head '.'
    let (pkg, stru) ←
      if idx > -1 then do
        -- Value struct: Event; pointer to struct: (*Event); package init(): init
        let stru ← sliceRange funcName (idx + 1) lastDot
        let pkg ← sliceTo funcName idx
        -- a package.init() comes as stru:init func:0
        pure (pkg, if stru = "init".toList then [] else stru)
      else do
        let pkg ← sliceTo funcName lastDot
        pure (pkg, [])
    let rest ← sliceFrom funcName (lastDot + 1)
    let fn := strings.Trim rest " ".toList
    let fn := if fn = "0".toList then "init".toList else fn
    pure (some ⟨pkg, stru, fn, fileName, lineNo⟩)
  | none => pure none

/-- The struct `PackageInfo`. -/
structure PackageInfo where
  Package : Str
  Filename : Str
  deriving DecidableEq, Repr

/-- The function `RetrievePackageInfo`, from the results of
`runtime.Caller(frames)` on, given as for `RetrieveCallerInfo`. -/
def RetrievePackageInfo (caller : Option (Str × Str × Int)) :
    Except Panic (Option PackageInfo) :=
  match caller with
  | some (funcName, fileName, _) => do
    let lastSlash := strings.LastIndex funcName '/'
    let lastSlash := if lastSlash < 0 then 0 else lastSlash
    let tail ← sliceFrom funcName lastSlash
    let lastDot := strings.LastIndex tail '.' + lastSlash
    let head ← sliceTo funcName lastDot
    let idx := strings.IndexByte head '.'
    let pkg ← if idx > -1 then sliceTo funcName idx else sliceTo funcName lastDot
    pure (some ⟨pkg, fileName⟩)
  | none => pure none

end mlog

/-! ## `app/logx/logx.go`: `GetNestingLevel` -/

namespace logx

/-- The constant `SEP_FUNC`. -/
def SEP_FUNC : Str := "⯈".toList

/-- The constant `SEP_METH_PTR`. -/
def SEP_METH_PTR : Str := "🡪".toList

/-- The constant `SEP_PKG`. -/
def SEP_PKG : Str := "▪".toList

/-- The loop of `GetNestingLevel` over the captured frames, from the level and
the names reached so far: it stops at the frame `main.main`, classifies the
frame with `getNames` only while the level is still `0`, and counts the frame.
The level is an `int` that starts at 0 and goes up by one at most ten times. -/
def walkFrames : List Str → Nat → Str × Str × Str → Except Panic (Nat × Str × Str × Str)
  | [], nestingLevel, names => pure (nestingLevel, names)
  | frame :: rest, nestingLevel, names =>
    if frame = "main.main".toList then pure (nestingLevel, names)
    else do
      let names ← if nestingLevel = 0 then getNames frame else pure names
      walkFrames rest (nestingLevel + 1) names

/-- The second half of `GetNestingLevel`: the location string made from the
package, struct and function name with the format `%p%O%F`.  The bound
`len(s)-1` of the two struct slices removes the last byte of `s`, here its
last character: the same cut whenever that character is an ASCII one. -/
def prettyLocation (pk s f : Str) : Except Panic Str := do
  let spec : Str := "%p%O%F".toList
  let pretty := spec
  -- transform package
  let pk ←
    if strings.Contains spec "%p".toList then
      if strings.LastIndex pk '/' ≠ -1 then sliceFrom pk (strings.LastIndex pk '/' + 1)
      else pure pk
    else pure pk
  let pk := pk ++ SEP_PKG
  let pretty := strings.Replace1 pretty "%P".toList pk
  let pretty := strings.Replace1 pretty "%p".toList pk
  -- transform struct/object (if any)
  let isPointer := strings.HasPrefix s ".(*".toList
  let s ←
    if s ≠ [] then
      if isPointer then do
        let s ← sliceRange s 3 ((s.length : Int) - 1)
        pure (s ++ SEP_METH_PTR)
      else do
        let s ← sliceRange s 1 ((s.length : Int) - 1)
        pure (s ++ SEP_FUNC)
    else pure s
  let pretty := strings.Replace1 pretty "%O".toList s
  let pretty := strings.Replace1 pretty "%o".toList s
  -- transform function
  let f := if strings.Contains pretty "%F".toList then f ++ "()".toList else f
  let pretty := strings.Replace1 pretty "%F".toList f
  let pretty := strings.Replace1 pretty "%f".toList f
  pure pretty

/-- The function `GetNestingLevel`, from the result of `runtime.Callers(popCnt,
pc)` on: `stack` lists the function names of the frames from the first
examined one outwards, of which the buffer `pc` of length 10 holds the first
ten. -/
def GetNestingLevel (stack : List Str) : Except Panic (Nat × Str) := do
  let pc := stack.take 10
  -- count how many frames until we reach main
  let (nestingLevel, pk, s, f) ← walkFrames pc 0 ([], [], [])
  let (pk, s, f) :=
    if nestingLevel = 0 ∧ pk = [] ∧ f = [] then ("main".toList, ([] : Str), "main".toList)
    else (pk, s, f)
  let pretty ← prettyLocation pk s f
  pure (nestingLevel, pretty)

end logx

/-! ## `app/mlog/mlog.go`: the levels -/

namespace mlog

/-- The type `LogLevel`, an `int`. -/
abbrev LogLevel := Int

/-- The constant `LevelTrace = iota`: it is the twelfth constant of its `const`
block, after `defaultPrefix`, `defaultLevel`, the seven tags and the two
names of environment variables, so that `iota` is 11 there. -/
def LevelTrace : LogLevel := 11

/-- The constant `LevelDebug`. -/
def LevelDebug : LogLevel := 12

/-- The constant `LevelInfo`. -/
def LevelInfo : LogLevel := 13

/-- The constant `LevelWarning`. -/
def LevelWarning : LogLevel := 14

/-- The constant `LevelError`. -/
def LevelError : LogLevel := 15

/-- The constant `LevelFatal`. -/
def LevelFatal : LogLevel := 16

/-- The constant `defaultLevel`. -/
def defaultLevel : LogLevel := LevelError

/-- The constant `tagWARN`. -/
def tagWARN : Str := "[WRN] ".toList

/-- The constant `tagERROR`. -/
def tagERROR : Str := "[ERR] ".toList

/-- The constant `tagFATAL`. -/
def tagFATAL : Str := "[DIE] ".toList

/-- The function `parseLevel`. -/
def parseLevel (s : Str) : LogLevel :=
  let s := strings.Trim s " \t".toList
  if strings.EqualFold s "trace".toList then LevelTrace
  else if strings.EqualFold s "debug".toList then LevelDebug
  else if strings.EqualFold s "info".toList then LevelInfo
  else if strings.EqualFold s "warning".toList then LevelWarning
  else if strings.EqualFold s "warn".toList then LevelWarning
  else if strings.EqualFold s "error".toList then LevelError
  else if strings.EqualFold s "fatal".toList then LevelFatal
  else LevelFatal

/-- The value that `init` gives to `minLogLevel`, from the value `levelString`
of the environment variable `LOG_LEVEL_CX` on (empty when it is absent). -/
def init (levelString : Str) : LogLevel :=
  if levelString ≠ [] then parseLevel levelString
  else defaultLevel

/-- The name that a level text stands for: the text without its leading and
trailing blanks and tabs, with its ASCII letters in lower case. -/
def levelName (s : Str) : Str := (strings.Trim s " \t".toList).map Char.toLower

/-- The table of level names, as the description of `parseLevel` gives it:
the level of each of the seven names, and `LevelFatal` for any other text. -/
def levelTable (name : Str) : LogLevel :=
  if name = "trace".toList then LevelTrace
  else if name = "debug".toList then LevelDebug
  else if name = "info".toList then LevelInfo
  else if name = "warn".toList ∨ name = "warning".toList then LevelWarning
  else if name = "error".toList then LevelError
  else LevelFatal

/-- A call of the logger `ilogger`, with its operands; an operand of type
`any` is held as its text. -/
inductive LogCall where
  | Print (v : List Str)
  | Printf (format : Str) (v : List Str)
  | Println (v : List Str)
  deriving DecidableEq, Repr

/-- The text that the `...T` functions build from the tag, the message and the
`String()` of every key-value pair. -/
def tagged (tag message : Str) (v : List Str) : Str :=
  v.foldl (fun sb t => sb ++ (" ".toList ++ t)) (tag ++ message)

/-- The function `Warn`: the logger call that it makes, if any. -/
def Warn (minLogLevel : LogLevel) (v : List Str) : Option LogCall :=
  if minLogLevel ≤ LevelWarning then some (.Print (tagWARN :: v)) else none

/-- The function `Warnf`. -/
def Warnf (minLogLevel : LogLevel) (format : Str) (v : List Str) : Option LogCall :=
  if minLogLevel ≤ LevelWarning then some (.Printf (tagWARN ++ format) v) else none

/-- The function `WarnT`. -/
def WarnT (minLogLevel : LogLevel) (message : Str) (v : List Str) : Option LogCall :=
  if minLogLevel ≤ LevelWarning then some (.Print [tagged tagWARN message v]) else none

/-- The function `Error`. -/
def Error (minLogLevel : LogLevel) (v : List Str) : Option LogCall :=
  if minLogLevel ≤ LevelError then some (.Print (tagERROR :: v)) else none

/-- The function `Errorf`. -/
def Errorf (minLogLevel : LogLevel) (format : Str) (v : List Str) : Option LogCall :=
  if minLogLevel ≤ LevelError then some (.Printf (tagERROR ++ format) v) else none

/-- The function `ErrorT`. -/
def ErrorT (minLogLevel : LogLevel) (message : Str) (v : List Str) : Option LogCall :=
  if minLogLevel ≤ LevelError then some (.Print [tagged tagERROR message v]) else none

/-- The function `ErrorE`, from the text `err.Error()` on. -/
def ErrorE (minLogLevel : LogLevel) (err : Str) : Option LogCall :=
  if minLogLevel ≤ LevelError then some (.Println [tagERROR, err]) else none

/-- The function `Fatal`: the logger call that it makes, if any, and the code
that it exits with. -/
def Fatal (minLogLevel : LogLevel) (exitCode : Int) (v : List Str) : Option LogCall × Int :=
  (if minLogLevel ≤ LevelFatal then some (.Print (tagFATAL :: v)) else none, exitCode)

/-- The function `Fatalf`. -/
def Fatalf (minLogLevel : LogLevel) (exitCode : Int) (format : Str) (v : List Str) :
    Option LogCall × Int :=
  (if minLogLevel ≤ LevelFatal then some (.Printf (tagFATAL ++ format) v) else none, exitCode)

/-- The function `FatalT`. -/
def FatalT (minLogLevel : LogLevel) (exitCode : Int) (message : Str) (v : List Str) :
    Option LogCall × Int :=
  (if minLogLevel ≤ LevelFatal then some (.Print [tagged tagFATAL message v]) else none,
    exitCode)

end mlog

/-! ## Sample inputs -/

namespace logx

/-- A host on which the filter file cannot be read. -/
def hostNoFile : Host where
  args0 := "demo".toList
  userConfigDir := .ok "/home/u/.config".toList
  join := fun a b c => a ++ "/".toList ++ b ++ "/".toList ++ c
  base := fun p => p.drop (strings.LastIndex p '/' + 1).toNat
  readFile := fun _ => .error "no such file".toList
  unmarshal := fun _ => .error "unexpected end of JSON input".toList
  encode := fun _ => .ok "\x7b\x7d".toList
  create := fun _ => true

/-- A host on which the filter file is read and holds one rule, for `main`. -/
def hostWithFile : Host :=
  { hostNoFile with
    readFile := fun _ => .ok "(the content of the file)".toList
    unmarshal := fun _ => .ok ⟨"demo".toList, [], [("main".toList, seedMain)], []⟩ }

/-- A host on which the configuration directory of the user is not known. -/
def hostNoConfigDir : Host :=
  { hostNoFile with userConfigDir := .error "$HOME is not defined".toList }

end logx

/-! ## Facts about the built-ins -/

theorem Except.bind_ok_eq {ε α β : Type} (a : α) (f : α → Except ε β) :
    (Except.ok a >>= f) = f a := rfl

theorem Except.bind_error_eq {ε α β : Type} (e : ε) (f : α → Except ε β) :
    (Except.error e >>= f) = Except.error e := rfl

namespace strings

theorem Count_append (a b : Str) (c : Char) : Count (a ++ b) c = Count a c + Count b c := by
  simp [Count, List.count_append]

theorem Count_of_not_mem {s : Str} {c : Char} (h : c ∉ s) : Count s c = 0 := by
  simp [Count, List.count_eq_zero.2 h]

theorem Count_cons_self (s : Str) (c : Char) : Count (c :: s) c = Count s c + 1 := by
  simp [Count]

theorem LastIndex_of_not_mem {s : Str} {c : Char} (h : c ∉ s) : LastIndex s c = -1 := by
  induction s with
  | nil => rfl
  | cons x xs ih =>
    have hx : x ≠ c := fun e => h (by simp [e])
    have hxs : c ∉ xs := fun e => h (by simp [e])
    simp [LastIndex, ih hxs, hx]

theorem LastIndex_append_sep (a b : Str) (c : Char) (h : c ∉ b) :
    LastIndex (a ++ c :: b) c = a.length := by
  induction a with
  | nil => simp [LastIndex, LastIndex_of_not_mem h]
  | cons x xs ih =>
    have h0 : (0 : Int) ≤ (xs.length : Int) := Int.ofNat_nonneg _
    simp [LastIndex, ih, h0]

theorem Split_of_not_mem {s : Str} {c : Char} (h : c ∉ s) : Split s c = [s] := by
  induction s with
  | nil => rfl
  | cons x xs ih =>
    have hx : x ≠ c := fun e => h (by simp [e])
    have hxs : c ∉ xs := fun e => h (by simp [e])
    simp [Split, ih hxs, hx]

theorem Split_append_sep (a b : Str) (c : Char) (h : c ∉ a) :
    Split (a ++ c :: b) c = a :: Split b c := by
  induction a with
  | nil => simp [Split]
  | cons x xs ih =>
    have hx : x ≠ c := fun e => h (by simp [e])
    have hxs : c ∉ xs := fun e => h (by simp [e])
    simp [Split, ih hxs, hx]

end strings

theorem sliceTo_append (a b : Str) : sliceTo (a ++ b) (a.length : Int) = .ok a := by
  simp [sliceTo]

theorem sliceFrom_append (a b : Str) : sliceFrom (a ++ b) (a.length : Int) = .ok b := by
  simp [sliceFrom]

theorem sliceFrom_append_succ (a b : Str) (c : Char) :
    sliceFrom (a ++ c :: b) ((a.length : Int) + 1) = .ok b := by
  have h : ((a.length : Int) + 1) = ((a ++ [c]).length : Int) := by simp
  have h2 : a ++ c :: b = (a ++ [c]) ++ b := by simp
  rw [h, h2, sliceFrom_append]

namespace logx

/-- A leading `host.tld/`, with a host of word characters and dashes and a
top-level domain of letters, is what the pattern removes. -/
theorem cleanHost_strip (host tld rest : Str) (hh : host ≠ []) (hh2 : ∀ c ∈ host, isDashOrWord c)
    (ht : tld ≠ []) (ht2 : ∀ c ∈ tld, isLetter c) :
    cleanHost (host ++ '.' :: tld ++ '/' :: rest) = rest := by
  have hdot : ¬ (isDashOrWord '.' = true) := by decide
  have hsl : ¬ (isLetter '/' = true) := by decide
  have e1 : (host ++ '.' :: tld ++ '/' :: rest).takeWhile isDashOrWord = host := by
    rw [List.append_assoc, List.takeWhile_append_of_pos hh2]
    simp [hdot]
  have e2 : (host ++ '.' :: tld ++ '/' :: rest).dropWhile isDashOrWord
      = '.' :: (tld ++ '/' :: rest) := by
    rw [List.append_assoc, List.dropWhile_append_of_pos hh2]
    simp [hdot]
  have e3 : (tld ++ '/' :: rest).takeWhile isLetter = tld := by
    rw [List.takeWhile_append_of_pos ht2]
    simp [hsl]
  have e4 : (tld ++ '/' :: rest).dropWhile isLetter = '/' :: rest := by
    rw [List.dropWhile_append_of_pos ht2]
    simp [hsl]
  have n1 : host.isEmpty = false := by cases host with
    | nil => exact absurd rfl hh
    | cons _ _ => rfl
  have n2 : tld.isEmpty = false := by cases tld with
    | nil => exact absurd rfl ht
    | cons _ _ => rfl
  unfold cleanHost hostMatch
  rw [e1, e2]
  simp only [e3, e4, n1, n2]
  rfl

/-- A name that starts with a path element, `dir/...`, has no leading
`host.tld/` and is left as it is. -/
theorem cleanHost_of_slash (dir rest : Str) (hd : ∀ c ∈ dir, isDashOrWord c) :
    cleanHost (dir ++ '/' :: rest) = dir ++ '/' :: rest := by
  have hsl : ¬ (isDashOrWord '/' = true) := by decide
  have e2 : (dir ++ '/' :: rest).dropWhile isDashOrWord = '/' :: rest := by
    rw [List.dropWhile_append_of_pos hd]
    simp [hsl]
  unfold cleanHost hostMatch
  rw [e2]
  split_ifs <;> rfl

/-- One separator: the name is cut at its only `.`. -/
theorem getNames_one_dot (a b : Str) (ha : '.' ∉ a) (hb : '.' ∉ b) :
    getNames (a ++ '.' :: b) = .ok (a, [], b) := by
  have hcnt : strings.Count (a ++ '.' :: b) '.' = 1 := by
    rw [strings.Count_append, strings.Count_cons_self, strings.Count_of_not_mem ha,
      strings.Count_of_not_mem hb]; rfl
  have hidx : strings.LastIndex (a ++ '.' :: b) '.' = a.length :=
    strings.LastIndex_append_sep a b '.' hb
  simp only [getNames, hcnt, hidx, if_true, sliceFrom_append_succ, sliceTo_append,
    Except.bind_ok_eq]
  rfl

/-- Two separators: the name is cut at its last `.`, and what is left is cut at
its own last `.`, which stays at the head of the struct name. -/
theorem getNames_two_dots (a b c : Str) (ha : '.' ∉ a) (hb : '.' ∉ b) (hc : '.' ∉ c) :
    getNames (a ++ '.' :: b ++ '.' :: c) = .ok (a, '.' :: b, c) := by
  have hcnt : strings.Count (a ++ '.' :: b ++ '.' :: c) '.' = 2 := by
    rw [strings.Count_append, strings.Count_append, strings.Count_cons_self,
      strings.Count_cons_self, strings.Count_of_not_mem ha,
      strings.Count_of_not_mem hb, strings.Count_of_not_mem hc]; rfl
  have hidx : strings.LastIndex (a ++ '.' :: b ++ '.' :: c) '.' = (a ++ '.' :: b).length :=
    strings.LastIndex_append_sep (a ++ '.' :: b) c '.' hc
  have hidx2 : strings.LastIndex (a ++ '.' :: b) '.' = a.length :=
    strings.LastIndex_append_sep a b '.' hb
  have h12 : ¬ ((2 : Int) = 1) := by decide
  simp only [getNames, hcnt, hidx, h12, if_true, if_false, sliceFrom_append_succ,
    sliceTo_append, Except.bind_ok_eq, hidx2, sliceFrom_append]
  rfl

end logx

/-! ## Claims about `getNames` -/

namespace logx

/-- C1 (as stated, refuted): on `m.T.M` and on `m.(*T).M` the struct name that
`getNames` returns is not the bare `T`. -/
theorem getNames_method_not_bare :
    getNames "m.T.M".toList ≠ .ok ("m".toList, "T".toList, "M".toList) ∧
    getNames "m.(*T).M".toList ≠ .ok ("m".toList, "T".toList, "M".toList) := by
  decide

/-- C1 (amended): for a package name `m` and names `T`, `M` without `.`,
`getNames` returns `(m, ".T", "M")` on `m.T.M` and `(m, ".(*T)", "M")` on
`m.(*T).M`: the struct name keeps its leading `.` and its pointer marker. -/
theorem getNames_method (m T M : Str) (hm : '.' ∉ m) (hT : '.' ∉ T) (hM : '.' ∉ M) :
    getNames (m ++ ".".toList ++ T ++ ".".toList ++ M) = .ok (m, ".".toList ++ T, M) ∧
    getNames (m ++ ".(*".toList ++ T ++ ").".toList ++ M)
      = .ok (m, ".(*".toList ++ T ++ ")".toList, M) := by
  constructor
  · have h := getNames_two_dots m T M hm hT hM
    simpa using h
  · have hT2 : '.' ∉ '(' :: '*' :: (T ++ [')']) := by simp [hT]
    have h := getNames_two_dots m ('(' :: '*' :: (T ++ [')'])) M hm hT2 hM
    simpa using h

/-- Witness of `getNames_method` at `pkg.Worker.Run` and `pkg.(*Worker).Run`. -/
theorem getNames_method_witness :
    ('.' ∉ "pkg".toList ∧ '.' ∉ "Worker".toList ∧ '.' ∉ "Run".toList) ∧
    (getNames ("pkg".toList ++ ".".toList ++ "Worker".toList ++ ".".toList ++ "Run".toList)
        = .ok ("pkg".toList, ".".toList ++ "Worker".toList, "Run".toList) ∧
      getNames ("pkg".toList ++ ".(*".toList ++ "Worker".toList ++ ").".toList ++ "Run".toList)
        = .ok ("pkg".toList, ".(*".toList ++ "Worker".toList ++ ")".toList, "Run".toList)) :=
  ⟨⟨by decide, by decide, by decide⟩,
    getNames_method "pkg".toList "Worker".toList "Run".toList (by decide) (by decide) (by decide)⟩

/-- C2: for a non-empty module name `m` without `.` and a function name `F`
without `.`, `getNames` returns `(m, "", F)` on `m.F`. -/
theorem getNames_function (m F : Str) (_hne : m ≠ []) (hm : '.' ∉ m) (hF : '.' ∉ F) :
    getNames (m ++ ".".toList ++ F) = .ok (m, [], F) := by
  have h := getNames_one_dot m F hm hF
  simpa using h

/-- Witness of `getNames_function` at `main.Run`. -/
theorem getNames_function_witness :
    ("main".toList ≠ [] ∧ '.' ∉ "main".toList ∧ '.' ∉ "Run".toList) ∧
    getNames ("main".toList ++ ".".toList ++ "Run".toList) = .ok ("main".toList, [], "Run".toList) :=
  ⟨⟨by decide, by decide, by decide⟩,
    getNames_function "main".toList "Run".toList (by decide) (by decide) (by decide)⟩

/-- C3 (the code at the failing input): the plain function `github.com/a/b.F`
has two `.` in all, so `getNames` takes the method branch and returns package
`github`, struct `.com/a/b` and function `F`. -/
theorem getNames_dotted_host_function :
    getNames "github.com/a/b.F".toList
      = .ok ("github".toList, ".com/a/b".toList, "F".toList) := by
  decide

/-- C4 (as stated, refuted): on the closure name of the code comment the
normalised name splits into four segments, and the package that `getNames`
returns is `/gui`, not the first segment; a name of five segments reaches the
explicit `panic`, and one whose first segment has no `/` aborts on a slice. -/
theorem getNames_closure_module_not_first_segment :
    strings.Split (cleanHost closureName) '.'
      = ["lordofscripts/caesardisk/cmd/gui-app/gui".toList, "(*CipherModeGadget)".toList,
          "Define".toList, "func1".toList] ∧
    getNames closureName
      = .ok ("/gui".toList, "(*CipherModeGadget)".toList, "Define.func1".toList) ∧
    getNames closureName
      ≠ .ok ("lordofscripts/caesardisk/cmd/gui-app/gui".toList, "(*CipherModeGadget)".toList,
          "Define.func1".toList) ∧
    getNames "a/b.(*T).M.func1.func2".toList = .error (.explicit "WTF") ∧
    getNames "main.T.M.func1".toList = .error .sliceBounds := by
  decide

/-- C4 (amended): for a name with more than two `.` whose remainder, once the
leading `host.tld/` is removed, splits on `.` into three or four segments, the
first of which is `dir/base` with no `/` in `base`, `getNames` returns package
`/base`, struct = the second segment and function = the remaining segments
joined with `.`. -/
theorem getNames_nested (fq dir base seg1 seg2 : Str) (more : List Str)
    (hcnt : 2 < strings.Count fq '.')
    (hparts : strings.Split (cleanHost fq) '.' = (dir ++ '/' :: base) :: seg1 :: seg2 :: more)
    (hbase : '/' ∉ base) (hmore : more.length ≤ 1) :
    getNames fq = .ok ('/' :: base, seg1, ['.'].intercalate (seg2 :: more)) := by
  have h1 : ¬ (strings.Count fq '.' = 1) := by omega
  have h2 : ¬ (strings.Count fq '.' = 2) := by omega
  have hidx : strings.LastIndex (dir ++ '/' :: base) '/' = dir.length :=
    strings.LastIndex_append_sep dir base '/' hbase
  match more, hmore with
  | [], _ =>
    simp [getNames, h1, h2, hparts, indexAt, hidx, sliceFrom_append, Except.bind_ok_eq,
      List.intercalate]
  | [seg3], _ =>
    simp [getNames, h1, h2, hparts, indexAt, hidx, sliceFrom_append, Except.bind_ok_eq,
      List.intercalate]

/-- Witness of `getNames_nested` at the closure name of the code comment, which
has four `.` and yields package `/gui` and function `Define.func1`. -/
theorem getNames_nested_witness :
    (2 < strings.Count closureName '.' ∧ '/' ∉ "gui".toList) ∧
    getNames closureName
      = .ok ('/' :: "gui".toList, "(*CipherModeGadget)".toList,
          ['.'].intercalate ["Define".toList, "func1".toList]) :=
  ⟨⟨by decide, by decide⟩,
    getNames_nested closureName "lordofscripts/caesardisk/cmd/gui-app".toList "gui".toList
      "(*CipherModeGadget)".toList "Define".toList ["func1".toList]
      (by decide) (by decide) (by decide) (by decide)⟩

/-- C5 (the code at the failing input): on the closure `main.(*T).M.func1` of
package `main` the first segment has no `/`, and `getNames` aborts on the slice
`parts[0][-1:]`. -/
theorem getNames_main_closure_aborts :
    getNames "main.(*T).M.func1".toList = .error .sliceBounds := by
  decide

end logx

/-! ## Claims about the filter gate -/

namespace strings

/-- The test `strings.Contains` is substring containment. -/
theorem Contains_iff_infix (s t : Str) : Contains s t = true ↔ t <:+: s := by
  induction s with
  | nil => simp [Contains, List.isEmpty_iff]
  | cons c cs ih =>
    simp only [Contains, Bool.or_eq_true, ih, List.infix_cons_iff, List.isPrefixOf_iff_prefix]

end strings

namespace logx

/-- C6: `IsFilteredObject(m, t)` is `false` (allowed) exactly when `m` has a
rule and either its `Specifically` is `"*"` or its `LogLevel` is non-empty and
`t` is a substring of `Specifically`; so it is `true` (denied) for every `t`
when `m` has no rule, and type `Foo` is allowed by a rule listing only
`FooBar`. -/
theorem IsFilteredObject_allowed_iff :
    (∀ (l : LogGate) (m t : Str),
      l.IsFilteredObject m t = false ↔
        ∃ rule, l.Filters.lookup m = some rule ∧
          (rule.Specifically = "*".toList ∨ (rule.LogLevel ≠ [] ∧ t <:+: rule.Specifically))) ∧
    (∀ (l : LogGate) (m t : Str), l.Filters.lookup m = none → l.IsFilteredObject m t = true) ∧
    (gateOf [("m".toList, ⟨"info".toList, "FooBar".toList⟩)]).IsFilteredObject
      "m".toList "Foo".toList = false := by
  refine ⟨?_, ?_, by decide⟩
  · intro l m t
    cases hlk : l.Filters.lookup m with
    | none => simp [LogGate.IsFilteredObject, mapGet, hlk]
    | some rule =>
      by_cases hstar : rule.Specifically = "*".toList
      · simp [LogGate.IsFilteredObject, mapGet, hlk, hstar]
      · by_cases hlvl : rule.LogLevel = []
        · simp [LogGate.IsFilteredObject, mapGet, hlk, hstar, hlvl]
        · by_cases hsub : strings.Contains rule.Specifically t = true
          · have hin := (strings.Contains_iff_infix _ _).1 hsub
            simp [LogGate.IsFilteredObject, mapGet, hlk, hstar, hlvl, hsub, hin]
          · have hin : ¬ t <:+: rule.Specifically :=
              fun h => hsub ((strings.Contains_iff_infix _ _).2 h)
            simp [LogGate.IsFilteredObject, mapGet, hlk, hstar, hlvl, hsub, hin]
  · intro l m t hlk
    simp [LogGate.IsFilteredObject, mapGet, hlk]

/-- Witness of `IsFilteredObject_allowed_iff`: with no rule at all, type `T`
of module `m` is denied. -/
theorem IsFilteredObject_allowed_iff_witness :
    (gateOf []).Filters.lookup "m".toList = none ∧
    (gateOf []).IsFilteredObject "m".toList "T".toList = true :=
  ⟨by decide, IsFilteredObject_allowed_iff.2.1 (gateOf []) "m".toList "T".toList (by decide)⟩

/-- C7: `IsFiltered(m)` is `true` (denied) if and only if `m` is absent from the
rule mapping or its rule has the empty `LogLevel`. -/
theorem IsFiltered_iff (l : LogGate) (m : Str) :
    l.IsFiltered m = true ↔
      (l.Filters.lookup m = none ∨
        ∃ rule, l.Filters.lookup m = some rule ∧ rule.LogLevel = []) := by
  cases hlk : l.Filters.lookup m with
  | none => simp [LogGate.IsFiltered, mapGet, hlk]
  | some rule => simp [LogGate.IsFiltered, mapGet, hlk]

/-- C8 (as stated, refuted): a rule with the empty `LogLevel` and `Specifically`
equal to `"*"` is denied by `IsFiltered` and allowed by `IsFilteredObject`. -/
theorem default_deny_star_refuted :
    (gateOf [("m".toList, ⟨[], "*".toList⟩)]).IsFiltered "m".toList = true ∧
    (gateOf [("m".toList, ⟨[], "*".toList⟩)]).IsFilteredObject "m".toList "T".toList
      = false := by
  decide

/-- C8 (amended): if `m` is absent from the rule mapping, or present with the
empty `LogLevel` and a `Specifically` other than `"*"`, then `IsFiltered(m)` and
`IsFilteredObject(m, t)` are both `true` (denied). -/
theorem default_deny (l : LogGate) (m t : Str)
    (h : l.Filters.lookup m = none ∨
      ∃ rule, l.Filters.lookup m = some rule ∧ rule.LogLevel = [] ∧
        rule.Specifically ≠ "*".toList) :
    l.IsFiltered m = true ∧ l.IsFilteredObject m t = true := by
  rcases h with hlk | ⟨rule, hlk, hlvl, hstar⟩
  · simp [LogGate.IsFiltered, LogGate.IsFilteredObject, mapGet, hlk]
  · have hstar2 : ¬ rule.Specifically = ['*'] := by simpa using hstar
    simp [LogGate.IsFiltered, LogGate.IsFilteredObject, mapGet, hlk, hlvl, hstar2]

/-- Witness of `default_deny` at a rule with the empty `LogLevel` that lists
`StructA,StructB`. -/
theorem default_deny_witness :
    (gateOf [("m".toList, ⟨[], "StructA,StructB".toList⟩)]).IsFiltered "m".toList = true ∧
    (gateOf [("m".toList, ⟨[], "StructA,StructB".toList⟩)]).IsFilteredObject
      "m".toList "StructA".toList = true :=
  default_deny (gateOf [("m".toList, ⟨[], "StructA,StructB".toList⟩)]) "m".toList
    "StructA".toList
    (Or.inr ⟨⟨[], "StructA,StructB".toList⟩, by decide, by decide, by decide⟩)

/-- C9 (the code at the failing input): with the seed rule of `SaveFilters`,
`main` with `LogLevel` `debug` and the empty `Specifically`, the type `Worker`
of `main` is denied, and only the empty type name is allowed. -/
theorem IsFilteredObject_empty_specifically :
    (gateOf [("main".toList, ⟨"debug".toList, []⟩)]).IsFilteredObject
      "main".toList "Worker".toList = true ∧
    (gateOf [("main".toList, ⟨"debug".toList, []⟩)]).IsFilteredObject
      "main".toList [] = false := by
  decide

end logx

/-! ## Claims about `CallerInfo.StringF` -/

namespace strings

theorem Replace1_skip (pre rest o new : Str) (x : Char) (h : x ∉ pre) :
    Replace1 (pre ++ rest) (x :: o) new = pre ++ Replace1 rest (x :: o) new := by
  induction pre with
  | nil => rfl
  | cons c cs ih =>
    have hc : ¬ x = c := fun e => h (by simp [e])
    have hcs : x ∉ cs := fun e => h (by simp [e])
    simp [Replace1, List.isPrefixOf, hc, ih hcs]

theorem Replace1_of_not_mem (s o new : Str) (x : Char) (h : x ∉ s) :
    Replace1 s (x :: o) new = s := by
  have e := Replace1_skip s [] o new x h
  simpa [Replace1] using e

/-- The first token of the text is the one searched for: it is replaced. -/
theorem Replace1_hit (pre post new : Str) (x y : Char) (h : x ∉ pre) :
    Replace1 (pre ++ x :: y :: post) [x, y] new = pre ++ new ++ post := by
  rw [Replace1_skip pre _ _ _ _ h]
  simp [Replace1, List.isPrefixOf]

/-- The first token of the text is another one: the search goes on after it. -/
theorem Replace1_miss (pre post new : Str) (x y z : Char) (h : x ∉ pre) (hyz : y ≠ z)
    (hxz : x ≠ z) :
    Replace1 (pre ++ x :: z :: post) [x, y] new = pre ++ x :: z :: Replace1 post [x, y] new := by
  rw [Replace1_skip pre _ _ _ _ h]
  simp [Replace1, List.isPrefixOf, hyz, hxz]

theorem Contains_of_not_mem (s o : Str) (x : Char) (h : x ∉ s) :
    Contains s (x :: o) = false := by
  induction s with
  | nil => rfl
  | cons c cs ih =>
    have hc : ¬ x = c := fun e => h (by simp [e])
    have hcs : x ∉ cs := fun e => h (by simp [e])
    simp [Contains, List.isPrefixOf, hc, ih hcs]

end strings

namespace strconv

theorem digitChar_ne_percent (d : Nat) (h : d < 10) : Nat.digitChar d ≠ '%' := by
  interval_cases d <;> decide

theorem toDigitsCore_no_percent (fuel n : Nat) (ds : List Char) (h : '%' ∉ ds) :
    '%' ∉ Nat.toDigitsCore 10 fuel n ds := by
  induction fuel generalizing n ds with
  | zero => simpa [Nat.toDigitsCore] using h
  | succ k ih =>
    have hd : '%' ∉ Nat.digitChar (n % 10) :: ds := by
      simp only [List.mem_cons, not_or]
      exact ⟨fun e => digitChar_ne_percent _ (Nat.mod_lt _ (by decide)) e.symm, h⟩
    unfold Nat.toDigitsCore
    by_cases h0 : n / 10 = 0
    · simpa [h0] using hd
    · simpa [h0] using ih (n / 10) _ hd

/-- A decimal numeral holds no `%`. -/
theorem Itoa_no_percent (n : Int) : '%' ∉ Itoa n := by
  have h : '%' ∉ Nat.toDigits 10 n.natAbs :=
    toDigitsCore_no_percent _ _ [] (by simp)
  unfold Itoa
  split_ifs
  · simp only [List.mem_cons, not_or]
    exact ⟨by decide, h⟩
  · exact h

end strconv

namespace mlog

/-- The macro phase of `StringF` on the template `%B`. -/
theorem macros_B :
    strings.Replace1
      (strings.Replace1
        (strings.Replace1 (strings.Replace1 "%B".toList "%A".toList "%P".toList)
          "%B".toList "%P.%F#%L".toList)
        "%C".toList "%P.%S.%M#%L".toList)
      "%c".toList "%p.%S.%M#%L".toList
      = "%P.%F#%L".toList := by
  decide

/-- C10: for a `CallerInfo` with package name `p`, function name `f` (neither
holding a `%`) and line number `n`, `StringF("%B")` is `p.f()#n` with `n` in
decimal. -/
theorem StringF_B (p s f file : Str) (n : Int) (hp : '%' ∉ p) (hf : '%' ∉ f) :
    CallerInfo.StringF ⟨p, s, f, file, n⟩ "%B".toList
      = p ++ ".".toList ++ f ++ "()#".toList ++ strconv.Itoa n := by
  have hn := strconv.Itoa_no_percent n
  have e1 : ∀ new : Str, strings.Replace1 "%P.%F#%L".toList "%P".toList new
      = new ++ ".%F#%L".toList := by
    intro new
    simpa using strings.Replace1_hit [] ".%F#%L".toList new '%' 'P' (by simp)
  have e2 : ∀ new : Str, strings.Replace1 (p ++ ".%F#%L".toList) "%S".toList new
      = p ++ ".%F#%L".toList := by
    intro new
    have h := strings.Replace1_miss (p ++ ['.']) "#%L".toList new '%' 'S' 'F'
      (by simp [hp]) (by decide) (by decide)
    have h2 := strings.Replace1_miss ['#'] [] new '%' 'S' 'L' (by simp) (by decide) (by decide)
    simp only [List.append_assoc, List.singleton_append, String.toList] at h h2 ⊢
    rw [h, h2]
    rfl
  have e3 : strings.Replace1 (p ++ ".%F#%L".toList) "%F".toList (f ++ IFUNC)
      = p ++ '.' :: (f ++ "()#%L".toList) := by
    have h := strings.Replace1_hit (p ++ ['.']) "#%L".toList (f ++ IFUNC) '%' 'F' (by simp [hp])
    simpa [IFUNC] using h
  have e4 : ∀ new : Str, strings.Replace1 (p ++ '.' :: (f ++ "()#%L".toList)) "%M".toList new
      = p ++ '.' :: (f ++ "()#%L".toList) := by
    intro new
    have h := strings.Replace1_miss (p ++ '.' :: (f ++ "()#".toList)) [] new '%' 'M' 'L'
      (by simp [hp, hf]) (by decide) (by decide)
    simpa [strings.Replace1] using h
  have e5 : strings.Replace1 (p ++ '.' :: (f ++ "()#%L".toList)) "%L".toList (strconv.Itoa n)
      = p ++ '.' :: (f ++ "()#".toList ++ strconv.Itoa n) := by
    have h := strings.Replace1_hit (p ++ '.' :: (f ++ "()#".toList)) [] (strconv.Itoa n) '%' 'L'
      (by simp [hp, hf])
    simpa using h
  have e6 : strings.Contains (p ++ '.' :: (f ++ "()#".toList ++ strconv.Itoa n)) "%p".toList
      = false :=
    strings.Contains_of_not_mem _ _ '%' (by simp [hp, hf, hn])
  unfold CallerInfo.StringF
  simp only [macros_B, e1, e2, e3, e4, e5, e6]
  simp

/-- Witness of `StringF_B`: package `pkg`, function `Do` and line 42 render as
`pkg.Do()#42`. -/
theorem StringF_B_witness :
    ('%' ∉ "pkg".toList ∧ '%' ∉ "Do".toList) ∧
    CallerInfo.StringF ⟨"pkg".toList, [], "Do".toList, [], 42⟩ "%B".toList
      = "pkg.Do()#42".toList :=
  ⟨⟨by decide, by decide⟩,
    (StringF_B "pkg".toList [] "Do".toList [] 42 (by decide) (by decide)).trans (by decide)⟩

end mlog

/-! ## More facts about `strings.Replace1` and `strings.Contains` -/

namespace strings

theorem Replace1_nil (o new : Str) (x : Char) : Replace1 [] (x :: o) new = [] := rfl

/-- A character other than the first one of the token is stepped over. -/
theorem Replace1_cons_ne (cs o new : Str) (c x : Char) (h : x ≠ c) :
    Replace1 (c :: cs) (x :: o) new = c :: Replace1 cs (x :: o) new := by
  simp [Replace1, List.isPrefixOf, h]

/-- The token at the head of the text is replaced, and the rest is kept. -/
theorem Replace1_tok (cs new : Str) (x y : Char) :
    Replace1 (x :: y :: cs) [x, y] new = new ++ cs := by
  simp [Replace1, List.isPrefixOf]

/-- Another token at the head of the text is stepped over. -/
theorem Replace1_tok_ne (cs new : Str) (x y z : Char) (h : y ≠ z) :
    Replace1 (x :: z :: cs) [x, y] new = x :: Replace1 (z :: cs) [x, y] new := by
  simp [Replace1, List.isPrefixOf, h]

theorem Replace1_of_not_Contains (s old new : Str) (h : Contains s old = false) :
    Replace1 s old new = s := by
  induction s with
  | nil =>
    have h0 : old.isEmpty = false := by simpa [Contains] using h
    simp [Replace1, h0]
  | cons c cs ih =>
    simp only [Contains, Bool.or_eq_false_iff] at h
    simp [Replace1, h.1, ih h.2]

theorem Contains_skip (pre rest o : Str) (x : Char) (h : x ∉ pre) :
    Contains (pre ++ rest) (x :: o) = Contains rest (x :: o) := by
  induction pre with
  | nil => rfl
  | cons c cs ih =>
    have hc : ¬ x = c := fun e => h (by simp [e])
    have hcs : x ∉ cs := fun e => h (by simp [e])
    simp [Contains, List.isPrefixOf, hc, ih hcs]

end strings

namespace mlog

/-- C11: for a `CallerInfo` with package name `p`, non-empty structure name
`T`, function name `f` (none holding a `%`) and line number `n`,
`StringF("%C")` is `p.T{}.f()#n` with `n` in decimal. -/
theorem StringF_C (p T f file : Str) (n : Int) (hT0 : T ≠ []) (hp : '%' ∉ p) (hT : '%' ∉ T)
    (hf : '%' ∉ f) :
    CallerInfo.StringF ⟨p, T, f, file, n⟩ "%C".toList
      = p ++ ".".toList ++ T ++ "\x7b\x7d.".toList ++ f ++ "()#".toList ++ strconv.Itoa n := by
  have hn := strconv.Itoa_no_percent n
  have hlen : 0 < T.length := List.length_pos.2 hT0
  have hc := strings.Contains_of_not_mem (strconv.Itoa n) ['p'] '%' hn
  simp [CallerInfo.StringF, hc, strings.Replace1_skip, strings.Replace1_tok,
    strings.Replace1_tok_ne, strings.Replace1_cons_ne, strings.Replace1_nil,
    strings.Contains_skip, strings.Contains, hp, hT, hf, hn, hlen, IFUNC, ISTRU,
    List.isPrefixOf]

/-- Witness of `StringF_C`: package `pkg`, type `Worker`, function `Run` and
line 7 render as `pkg.Worker{}.Run()#7`. -/
theorem StringF_C_witness :
    ("Worker".toList ≠ [] ∧ '%' ∉ "pkg".toList ∧ '%' ∉ "Worker".toList ∧ '%' ∉ "Run".toList) ∧
    CallerInfo.StringF ⟨"pkg".toList, "Worker".toList, "Run".toList, [], 7⟩ "%C".toList
      = "pkg.Worker\x7b\x7d.Run()#7".toList :=
  ⟨⟨by decide, by decide, by decide, by decide⟩,
    (StringF_C "pkg".toList "Worker".toList "Run".toList [] 7 (by decide) (by decide)
      (by decide) (by decide)).trans (by decide)⟩

/-- C12: for a `CallerInfo` whose package, structure and function name hold no
`%` and a literal text `lit` without `%`, `StringF` replaces only the first of
two occurrences of an atomic token, `%P`, `%S`, `%F`, `%M` or `%L`, and leaves
the second as it is; likewise `StringF("%A %B")` is `p %P.f()#n`. -/
theorem StringF_one_shot (p s f file lit : Str) (n : Int) (hp : '%' ∉ p) (hs : '%' ∉ s)
    (hf : '%' ∉ f) (hlit : '%' ∉ lit) :
    CallerInfo.StringF ⟨p, s, f, file, n⟩ ("%P".toList ++ lit ++ "%P".toList)
      = p ++ lit ++ "%P".toList ∧
    CallerInfo.StringF ⟨p, s, f, file, n⟩ ("%S".toList ++ lit ++ "%S".toList)
      = (if s.length > 0 then s ++ ISTRU else []) ++ lit ++ "%S".toList ∧
    CallerInfo.StringF ⟨p, s, f, file, n⟩ ("%F".toList ++ lit ++ "%F".toList)
      = (f ++ IFUNC) ++ lit ++ "%F".toList ∧
    CallerInfo.StringF ⟨p, s, f, file, n⟩ ("%M".toList ++ lit ++ "%M".toList)
      = (f ++ IFUNC) ++ lit ++ "%M".toList ∧
    CallerInfo.StringF ⟨p, s, f, file, n⟩ ("%L".toList ++ lit ++ "%L".toList)
      = strconv.Itoa n ++ lit ++ "%L".toList ∧
    CallerInfo.StringF ⟨p, s, f, file, n⟩ "%A %B".toList
      = p ++ " %P.".toList ++ f ++ "()#".toList ++ strconv.Itoa n := by
  have hn := strconv.Itoa_no_percent n
  refine ⟨?_, ?_, ?_, ?_, ?_, ?_⟩
  · simp [CallerInfo.StringF, strings.Replace1_skip, strings.Replace1_tok,
      strings.Replace1_tok_ne, strings.Replace1_cons_ne, strings.Replace1_nil,
      strings.Contains_skip, strings.Contains, hp, hs, hf, hn, hlit, IFUNC, ISTRU,
      List.isPrefixOf]
  · by_cases h0 : s = []
    · subst h0
      simp [CallerInfo.StringF, strings.Replace1_skip, strings.Replace1_tok,
        strings.Replace1_tok_ne, strings.Replace1_cons_ne, strings.Replace1_nil,
        strings.Contains_skip, strings.Contains, hp, hf, hn, hlit, IFUNC, ISTRU,
        List.isPrefixOf]
    · have hlen : 0 < s.length := List.length_pos.2 h0
      simp [CallerInfo.StringF, strings.Replace1_skip, strings.Replace1_tok,
        strings.Replace1_tok_ne, strings.Replace1_cons_ne, strings.Replace1_nil,
        strings.Contains_skip, strings.Contains, hp, hs, hf, hn, hlit, hlen, IFUNC, ISTRU,
        List.isPrefixOf]
  · simp [CallerInfo.StringF, strings.Replace1_skip, strings.Replace1_tok,
      strings.Replace1_tok_ne, strings.Replace1_cons_ne, strings.Replace1_nil,
      strings.Contains_skip, strings.Contains, hp, hs, hf, hn, hlit, IFUNC, ISTRU,
      List.isPrefixOf]
  · simp [CallerInfo.StringF, strings.Replace1_skip, strings.Replace1_tok,
      strings.Replace1_tok_ne, strings.Replace1_cons_ne, strings.Replace1_nil,
      strings.Contains_skip, strings.Contains, hp, hs, hf, hn, hlit, IFUNC, ISTRU,
      List.isPrefixOf]
  · simp [CallerInfo.StringF, strings.Replace1_skip, strings.Replace1_tok,
      strings.Replace1_tok_ne, strings.Replace1_cons_ne, strings.Replace1_nil,
      strings.Contains_skip, strings.Contains, hp, hs, hf, hn, hlit, IFUNC, ISTRU,
      List.isPrefixOf]
  · have hc := strings.Contains_of_not_mem (strconv.Itoa n) ['p'] '%' hn
    simp [CallerInfo.StringF, hc, strings.Replace1_skip, strings.Replace1_tok,
      strings.Replace1_tok_ne, strings.Replace1_cons_ne, strings.Replace1_nil,
      strings.Contains_skip, strings.Contains, hp, hs, hf, hn, hlit, IFUNC, ISTRU,
      List.isPrefixOf]

/-- Witness of `StringF_one_shot` at package `pkg`, type `Worker`, function
`Run`, line 7 and the literal text ` and `. -/
theorem StringF_one_shot_witness :
    CallerInfo.StringF ⟨"pkg".toList, "Worker".toList, "Run".toList, [], 7⟩ "%P and %P".toList
      = "pkg and %P".toList ∧
    CallerInfo.StringF ⟨"pkg".toList, "Worker".toList, "Run".toList, [], 7⟩ "%A %B".toList
      = "pkg %P.Run()#7".toList :=
  have h := StringF_one_shot "pkg".toList "Worker".toList "Run".toList [] " and ".toList 7
    (by decide) (by decide) (by decide) (by decide)
  ⟨h.1.trans (by decide), h.2.2.2.2.2.trans (by decide)⟩

/-- C13 (the code at the failing input): for the package name `main`, which has
no `/`, `StringF("%p")` is the token `%p` itself; for `lordofscripts/logy` it
is `logy`. -/
theorem StringF_short_package_main :
    CallerInfo.StringF ⟨"main".toList, [], "Do".toList, [], 42⟩ "%p".toList = "%p".toList ∧
    CallerInfo.StringF ⟨"lordofscripts/logy".toList, [], "Do".toList, [], 42⟩ "%p".toList
      = "logy".toList := by
  decide

/-- A token that the text does not contain is not replaced, whatever it is. -/
theorem Replace1_formatToken (t tok new : Str)
    (h : ∀ x ∈ formatTokens, strings.Contains t x = false) (hx : tok ∈ formatTokens) :
    strings.Replace1 t tok new = t :=
  strings.Replace1_of_not_Contains t tok new (h tok hx)

/-- C14: a template that contains none of the ten tokens `%A`, `%B`, `%C`,
`%c`, `%P`, `%p`, `%S`, `%F`, `%M`, `%L` is returned unchanged by `StringF`. -/
theorem StringF_no_token (c : CallerInfo) (t : Str)
    (h : ∀ tok ∈ formatTokens, strings.Contains t tok = false) :
    c.StringF t = t := by
  have hr : ∀ tok ∈ formatTokens, ∀ new : Str, strings.Replace1 t tok new = t :=
    fun tok hx new => Replace1_formatToken t tok new h hx
  have hp : strings.Contains t "%p".toList = false := h _ (by decide)
  unfold CallerInfo.StringF
  simp only [hr "%A".toList (by decide), hr "%B".toList (by decide),
    hr "%C".toList (by decide), hr "%c".toList (by decide), hr "%P".toList (by decide),
    hr "%S".toList (by decide), hr "%F".toList (by decide), hr "%M".toList (by decide),
    hr "%L".toList (by decide), hp]
  simp

/-- Witness of `StringF_no_token`: the template `100%Z done` is returned as it
is. -/
theorem StringF_no_token_witness :
    (∀ tok ∈ formatTokens, strings.Contains "100%Z done".toList tok = false) ∧
    CallerInfo.StringF ⟨"pkg".toList, "Worker".toList, "Run".toList, [], 7⟩ "100%Z done".toList
      = "100%Z done".toList :=
  ⟨by decide,
    StringF_no_token ⟨"pkg".toList, "Worker".toList, "Run".toList, [], 7⟩ "100%Z done".toList
      (by decide)⟩

/-- C15 (the code at the failing input): for package `pkg`, function `Do` and
line 42 `String()` is `pkg.Do()#42`, with the line number; with the type
`Worker` it is `%p.Worker{}.Do()#42`; `ObjectInfo()` gives `pkg.Do()` and
`pkg.Worker{}.Do()`. -/
theorem String_has_line_number :
    CallerInfo.String ⟨"pkg".toList, [], "Do".toList, [], 42⟩ = "pkg.Do()#42".toList ∧
    CallerInfo.String ⟨"pkg".toList, "Worker".toList, "Do".toList, [], 42⟩
      = "%p.Worker\x7b\x7d.Do()#42".toList ∧
    CallerInfo.ObjectInfo ⟨"pkg".toList, [], "Do".toList, [], 42⟩ = "pkg.Do()".toList ∧
    CallerInfo.ObjectInfo ⟨"pkg".toList, "Worker".toList, "Do".toList, [], 42⟩
      = "pkg.Worker\x7b\x7d.Do()".toList := by
  decide

end mlog

/-! ## Claims about `GetNestingLevel` -/

namespace strings

theorem LastIndex_bounds (s : Str) (c : Char) :
    -1 ≤ LastIndex s c ∧ LastIndex s c < (s.length : Int) := by
  induction s with
  | nil => simp [LastIndex]
  | cons x xs ih =>
    simp only [LastIndex, List.length_cons, Nat.cast_add, Nat.cast_one]
    split_ifs <;> omega

end strings

/-- The slice `s[idx+1:]` after the last occurrence of a character is in range. -/
theorem sliceFrom_LastIndex_succ (s : Str) (c : Char) :
    sliceFrom s (strings.LastIndex s c + 1)
      = .ok (s.drop (strings.LastIndex s c + 1).toNat) := by
  have h := strings.LastIndex_bounds s c
  have h2 : 0 ≤ strings.LastIndex s c + 1 ∧ strings.LastIndex s c + 1 ≤ (s.length : Int) := by
    omega
  simp [sliceFrom, h2]

theorem sliceRange_ok (s : Str) (lo hi : Int) (h : 0 ≤ lo ∧ lo ≤ hi ∧ hi ≤ (s.length : Int)) :
    sliceRange s lo hi = .ok ((s.take hi.toNat).drop lo.toNat) := by
  simp [sliceRange, h]

namespace logx

/-- Once the level is positive the loop only counts: the names stay. -/
theorem walkFrames_pos (fs : List Str) (lvl : Nat) (names : Str × Str × Str) (h : 0 < lvl) :
    ∃ k, walkFrames fs lvl names = .ok (lvl + k, names) := by
  induction fs generalizing lvl with
  | nil => exact ⟨0, rfl⟩
  | cons x xs ih =>
    by_cases hx : x = "main.main".toList
    · exact ⟨0, by simp [walkFrames, hx]; rfl⟩
    · obtain ⟨k, hk⟩ := ih (lvl + 1) (Nat.succ_pos _)
      have h0 : lvl ≠ 0 := Nat.pos_iff_ne_zero.1 h
      refine ⟨k + 1, ?_⟩
      have hx2 : ¬ x = ['m', 'a', 'i', 'n', '.', 'm', 'a', 'i', 'n'] := by simpa using hx
      simp only [walkFrames, String.toList, hx2, if_false, h0]
      show walkFrames xs (lvl + 1) names = _
      rw [hk]
      congr 2
      omega

/-- Frames other than `main.main`, followed by `main.main`, in a buffer of `k`
entries: the loop counts the frames that fit. -/
theorem walkFrames_count (fs rest : List Str) (k lvl : Nat) (names : Str × Str × Str)
    (h : 0 < lvl) (hfs : ∀ fr ∈ fs, fr ≠ "main.main".toList) :
    walkFrames ((fs ++ "main.main".toList :: rest).take k) lvl names
      = .ok (lvl + min fs.length k, names) := by
  induction fs generalizing lvl k with
  | nil =>
    cases k with
    | zero => rfl
    | succ k => simp [walkFrames]; rfl
  | cons x xs ih =>
    cases k with
    | zero => rfl
    | succ k =>
      have hx : ¬ x = ['m', 'a', 'i', 'n', '.', 'm', 'a', 'i', 'n'] := by
        simpa using hfs x (by simp)
      have hxs : ∀ fr ∈ xs, fr ≠ "main.main".toList := fun fr hfr => hfs fr (by simp [hfr])
      have h0 : lvl ≠ 0 := Nat.pos_iff_ne_zero.1 h
      have e := ih k (lvl + 1) (Nat.succ_pos _) hxs
      simp only [List.cons_append, List.take_succ_cons, walkFrames, String.toList, hx, if_false,
        h0]
      show walkFrames ((xs ++ "main.main".toList :: rest).take k) (lvl + 1) names = _
      rw [e]
      congr 2
      simp only [List.length_cons]
      omega

/-- A struct name that starts with `.(*` and is not `.(*` alone has at least
four characters. -/
theorem four_le_of_pointer (s : Str) (h : strings.HasPrefix s ".(*".toList = true)
    (hne : s ≠ ".(*".toList) : 4 ≤ s.length := by
  rcases s with _ | ⟨a, _ | ⟨b, _ | ⟨c, _ | ⟨d, t⟩⟩⟩⟩
  · simp [strings.HasPrefix, List.isPrefixOf] at h
  · simp [strings.HasPrefix, List.isPrefixOf] at h
  · simp [strings.HasPrefix, List.isPrefixOf] at h
  · exfalso
    apply hne
    simp [strings.HasPrefix, List.isPrefixOf] at h
    obtain ⟨h1, h2, h3⟩ := h
    subst h1 h2 h3
    rfl
  · simp

/-- The location string is produced whenever the struct name is empty or has
at least two characters and is not `.(*` alone. -/
theorem prettyLocation_ok (pk s f : Str)
    (hs : s = [] ∨ (2 ≤ s.length ∧ s ≠ ".(*".toList)) :
    ∃ loc, prettyLocation pk s f = .ok loc := by
  have hc : strings.Contains "%p%O%F".toList "%p".toList = true := by decide
  have hpk := sliceFrom_LastIndex_succ pk '/'
  unfold prettyLocation
  simp only [hc, if_true]
  by_cases h0 : s = []
  · subst h0
    split_ifs <;> first
      | contradiction
      | simp [hpk, Except.bind_ok_eq, bind, Except.bind, pure, Except.pure]
  · have h2 : 2 ≤ s.length ∧ s ≠ ".(*".toList := hs.resolve_left h0
    by_cases hptr : strings.HasPrefix s ".(*".toList = true
    · have h4 := four_le_of_pointer s hptr h2.2
      have hr := sliceRange_ok s 3 ((s.length : Int) - 1) (by omega)
      split_ifs <;> simp [hpk, hr, hptr, h0, Except.bind_ok_eq, bind, Except.bind, pure, Except.pure]
    · have hr := sliceRange_ok s 1 ((s.length : Int) - 1) (by omega)
      split_ifs <;> simp [hpk, hr, hptr, h0, Except.bind_ok_eq, bind, Except.bind, pure, Except.pure]

/-- The location string of the synthetic root identity. -/
theorem prettyLocation_main :
    prettyLocation "main".toList [] "main".toList = .ok "main▪main()".toList := by
  decide

/-- With `main.main` as the first examined frame nothing is counted and the
synthetic root identity is rendered. -/
theorem GetNestingLevel_main_first (rest : List Str) :
    GetNestingLevel ("main.main".toList :: rest) = .ok (0, "main▪main()".toList) := by
  have hw : walkFrames (("main.main".toList :: rest).take 10) 0 ([], [], [])
      = .ok (0, [], [], []) := by
    simp [walkFrames]
    rfl
  unfold GetNestingLevel
  simp only [hw, Except.bind_ok_eq]
  simp only [and_self, if_true, prettyLocation_main, Except.bind_ok_eq]
  rfl

/-- With a first frame other than `main.main` that `getNames` classifies, the
result is the location string of that frame, next to the level that the loop
reaches on the rest of the buffer. -/
theorem GetNestingLevel_first (fr : Str) (tl : List Str) (pk s f : Str) (k : Nat)
    (hfr : fr ≠ "main.main".toList) (hg : getNames fr = .ok (pk, s, f))
    (hw : walkFrames (tl.take 9) 1 (pk, s, f) = .ok (1 + k, pk, s, f)) :
    GetNestingLevel (fr :: tl) = (prettyLocation pk s f).map (fun loc => (1 + k, loc)) := by
  have hfr2 : ¬ fr = ['m', 'a', 'i', 'n', '.', 'm', 'a', 'i', 'n'] := by simpa using hfr
  have hw0 : walkFrames ((fr :: tl).take 10) 0 ([], [], []) = .ok (1 + k, pk, s, f) := by
    simp only [List.take_succ_cons, walkFrames, String.toList, hfr2, if_false, if_true, hg,
      Except.bind_ok_eq]
    exact hw
  have hk : ¬ (1 + k = 0) := by omega
  unfold GetNestingLevel
  simp only [hw0, Except.bind_ok_eq, hk, false_and, if_false]
  cases prettyLocation pk s f <;> rfl

/-- With a first frame that `getNames` aborts on, `GetNestingLevel` aborts. -/
theorem GetNestingLevel_first_error (fr : Str) (tl : List Str) (e : Panic)
    (hfr : fr ≠ "main.main".toList) (hg : getNames fr = .error e) :
    GetNestingLevel (fr :: tl) = .error e := by
  have hfr2 : ¬ fr = ['m', 'a', 'i', 'n', '.', 'm', 'a', 'i', 'n'] := by simpa using hfr
  have hw0 : walkFrames ((fr :: tl).take 10) 0 ([], [], []) = .error e := by
    simp only [List.take_succ_cons, walkFrames, String.toList, hfr2, if_false, if_true, hg]
    rfl
  unfold GetNestingLevel
  simp only [hw0]
  rfl

/-- The location string comes from the first frame alone. -/
theorem GetNestingLevel_location (fr : Str) (tl : List Str) (hfr : fr ≠ "main.main".toList) :
    (GetNestingLevel (fr :: tl)).map Prod.snd
      = getNames fr >>= fun names => prettyLocation names.1 names.2.1 names.2.2 := by
  cases hg : getNames fr with
  | error e =>
    rw [GetNestingLevel_first_error fr tl e hfr hg]
    rfl
  | ok names =>
    obtain ⟨pk, s, f⟩ := names
    obtain ⟨k, hk⟩ := walkFrames_pos (tl.take 9) 1 (pk, s, f) Nat.one_pos
    rw [GetNestingLevel_first fr tl pk s f k hfr hg hk, Except.bind_ok_eq]
    cases prettyLocation pk s f <;> rfl

/-- C16 (as stated, refuted): with eleven frames `main.f` before `main.main`
the depth is 10; and with the first frame `github.com/a/b.T.M`, which
`getNames` classifies, `GetNestingLevel` aborts. -/
theorem GetNestingLevel_depth_refuted :
    GetNestingLevel (List.replicate 11 "main.f".toList ++ ["main.main".toList])
      = .ok (10, "main▪f()".toList) ∧
    getNames "github.com/a/b.T.M".toList = .ok ("/b".toList, "T".toList, "M".toList) ∧
    GetNestingLevel ["github.com/a/b.T.M".toList, "main.main".toList]
      = .error .sliceBounds := by
  decide

/-- C16 (amended): for a call chain of `D` frames other than `main.main`
followed by `main.main`, where `getNames` classifies the first frame with a
struct name that is empty, or has at least two characters and is not `.(*`,
`GetNestingLevel` returns the depth `min D 10`. -/
theorem GetNestingLevel_depth (frames rest : List Str)
    (hfs : ∀ fr ∈ frames, fr ≠ "main.main".toList)
    (hfirst : frames = [] ∨ ∃ fr tl pk s f, frames = fr :: tl ∧ getNames fr = .ok (pk, s, f) ∧
      (s = [] ∨ (2 ≤ s.length ∧ s ≠ ".(*".toList))) :
    ∃ loc, GetNestingLevel (frames ++ "main.main".toList :: rest)
      = .ok (min frames.length 10, loc) := by
  rcases hfirst with rfl | ⟨fr, tl, pk, s, f, rfl, hg, hs⟩
  · exact ⟨_, GetNestingLevel_main_first rest⟩
  · have hfr : fr ≠ "main.main".toList := hfs fr (by simp)
    have htl : ∀ x ∈ tl, x ≠ "main.main".toList := fun x hx => hfs x (by simp [hx])
    have hw := walkFrames_count tl rest 9 1 (pk, s, f) Nat.one_pos htl
    obtain ⟨loc, hloc⟩ := prettyLocation_ok pk s f hs
    refine ⟨loc, ?_⟩
    rw [List.cons_append, GetNestingLevel_first fr _ pk s f _ hfr hg hw, hloc]
    have hm : 1 + min tl.length 9 = min (fr :: tl).length 10 := by
      simp only [List.length_cons]
      omega
    rw [← hm]
    rfl

/-- Witness of `GetNestingLevel_depth`: two frames, the method
`main.Worker.Run` first, before `main.main`. -/
theorem GetNestingLevel_depth_witness :
    ∃ loc, GetNestingLevel (["main.Worker.Run".toList, "main.f".toList]
        ++ "main.main".toList :: ["runtime.main".toList])
      = .ok (min ["main.Worker.Run".toList, "main.f".toList].length 10, loc) :=
  GetNestingLevel_depth ["main.Worker.Run".toList, "main.f".toList] ["runtime.main".toList]
    (by decide)
    (Or.inr ⟨"main.Worker.Run".toList, ["main.f".toList], "main".toList, ".Worker".toList,
      "Run".toList, rfl, by decide, Or.inr ⟨by decide, by decide⟩⟩)

/-- C17: for two frame sequences with the same first frame, other than
`main.main`, `GetNestingLevel` returns the same location string (or aborts in
the same way), whatever frames follow. -/
theorem GetNestingLevel_location_first (fr : Str) (r1 r2 : List Str)
    (hfr : fr ≠ "main.main".toList) :
    (GetNestingLevel (fr :: r1)).map Prod.snd = (GetNestingLevel (fr :: r2)).map Prod.snd := by
  rw [GetNestingLevel_location fr r1 hfr, GetNestingLevel_location fr r2 hfr]

/-- Witness of `GetNestingLevel_location_first`: the frame `main.f` alone, and
followed by twelve frames. -/
theorem GetNestingLevel_location_first_witness :
    "main.f".toList ≠ "main.main".toList ∧
    (GetNestingLevel ("main.f".toList :: [])).map Prod.snd
      = (GetNestingLevel ("main.f".toList
          :: (List.replicate 12 "main.g".toList ++ ["main.main".toList]))).map Prod.snd :=
  ⟨by decide, GetNestingLevel_location_first "main.f".toList []
    (List.replicate 12 "main.g".toList ++ ["main.main".toList]) (by decide)⟩

/-- C18: with no frame at all, and with `main.main` as the first examined
frame, `GetNestingLevel` returns the depth 0 and the string `main▪main()`. -/
theorem GetNestingLevel_root :
    GetNestingLevel [] = .ok (0, "main▪main()".toList) ∧
    ∀ rest : List Str,
      GetNestingLevel ("main.main".toList :: rest) = .ok (0, "main▪main()".toList) :=
  ⟨by decide, GetNestingLevel_main_first⟩

end logx

/-! ## Claims about `RetrieveCallerInfo` -/

namespace strings

theorem LastIndex_append_of_not_mem (a b : Str) (c : Char) (h : c ∉ b) :
    LastIndex (a ++ b) c = LastIndex a c := by
  induction a with
  | nil => simpa [LastIndex] using LastIndex_of_not_mem h
  | cons x xs ih => simp [LastIndex, ih]

theorem IndexByte_bounds (s : Str) (c : Char) :
    -1 ≤ IndexByte s c ∧ IndexByte s c < (s.length : Int) := by
  induction s with
  | nil => simp [IndexByte]
  | cons x xs ih =>
    simp only [IndexByte, List.length_cons, Nat.cast_add, Nat.cast_one]
    split_ifs <;> omega

theorem IndexByte_of_not_mem {s : Str} {c : Char} (h : c ∉ s) : IndexByte s c = -1 := by
  induction s with
  | nil => rfl
  | cons x xs ih =>
    have hx : x ≠ c := fun e => h (by simp [e])
    have hxs : c ∉ xs := fun e => h (by simp [e])
    simp [IndexByte, ih hxs, hx]

theorem IndexByte_append_sep (a b : Str) (c : Char) (h : c ∉ a) :
    IndexByte (a ++ c :: b) c = a.length := by
  induction a with
  | nil => simp [IndexByte]
  | cons x xs ih =>
    have hx : x ≠ c := fun e => h (by simp [e])
    have hxs : c ∉ xs := fun e => h (by simp [e])
    have h0 : (0 : Int) ≤ (xs.length : Int) := Int.ofNat_nonneg _
    simp [IndexByte, ih hxs, hx, h0]

end strings

namespace mlog

/-- The position `lastDot` that `RetrieveCallerInfo` computes on a name
`a.b`, where `b` holds neither `.` nor `/`, is the position of that `.`. -/
theorem lastDot_eq (a b : Str) (hb : '.' ∉ b) (hb2 : '/' ∉ b) (L : Int)
    (hL : L = if strings.LastIndex (a ++ '.' :: b) '/' < 0 then 0
      else strings.LastIndex (a ++ '.' :: b) '/') :
    sliceFrom (a ++ '.' :: b) L = .ok ((a ++ '.' :: b).drop L.toNat) ∧
    strings.LastIndex ((a ++ '.' :: b).drop L.toNat) '.' + L = a.length := by
  have hsl : '/' ∉ '.' :: b := by
    simp only [List.mem_cons, not_or]
    exact ⟨by decide, hb2⟩
  have h1 : strings.LastIndex (a ++ '.' :: b) '/' = strings.LastIndex a '/' :=
    strings.LastIndex_append_of_not_mem a _ '/' hsl
  have hbd := strings.LastIndex_bounds a '/'
  rw [h1] at hL
  have hL0 : 0 ≤ L ∧ L ≤ (a.length : Int) := by
    rw [hL]
    split_ifs <;> omega
  have hLn : L.toNat ≤ a.length := by omega
  have hdrop : (a ++ '.' :: b).drop L.toNat = a.drop L.toNat ++ '.' :: b :=
    List.drop_append_of_le_length hLn
  constructor
  · have hle : L ≤ (a.length : Int) + ((b.length : Int) + 1) := by omega
    simp [sliceFrom, hL0.1, hle]
  · rw [hdrop, strings.LastIndex_append_sep _ _ _ hb, List.length_drop]
    omega

/-- The classification of a name `a.b`, where `b` holds neither `.` nor `/`:
the package is `a` up to its first `.`, the structure is the rest of `a`
(cleared when it is `init`), and the function is `b` with its blanks trimmed
(`init` when it is `0`). -/
theorem RetrieveCallerInfo_cut (a b file : Str) (line : Int) (hb : '.' ∉ b) (hb2 : '/' ∉ b) :
    RetrieveCallerInfo (some (a ++ '.' :: b, file, line))
      = .ok (some
          ⟨if strings.IndexByte a '.' > -1 then a.take (strings.IndexByte a '.').toNat else a,
            if strings.IndexByte a '.' > -1 then
              (if a.drop (strings.IndexByte a '.' + 1).toNat = "init".toList then []
                else a.drop (strings.IndexByte a '.' + 1).toNat)
            else [],
            if strings.Trim b " ".toList = "0".toList then "init".toList
              else strings.Trim b " ".toList,
            file, line⟩) := by
  obtain ⟨h1, h2⟩ := lastDot_eq a b hb hb2 _ rfl
  have h3 : sliceTo (a ++ '.' :: b) (a.length : Int) = .ok a := sliceTo_append a _
  have h4 : sliceFrom (a ++ '.' :: b) ((a.length : Int) + 1) = .ok b :=
    sliceFrom_append_succ a b '.'
  have hbd := strings.IndexByte_bounds a '.'
  unfold RetrieveCallerInfo
  simp only [h1, h2, h3, h4, Except.bind_ok_eq]
  by_cases hi : strings.IndexByte a '.' > -1
  · have hn : (strings.IndexByte a '.').toNat ≤ a.length := by omega
    have hn1 : (strings.IndexByte a '.' + 1).toNat ≤ a.length := by omega
    have h5 : sliceRange (a ++ '.' :: b) (strings.IndexByte a '.' + 1) (a.length : Int)
        = .ok (a.drop (strings.IndexByte a '.' + 1).toNat) := by
      rw [sliceRange_ok _ _ _ (by
        simp only [List.length_append, List.length_cons, Nat.cast_add, Nat.cast_one]
        omega)]
      simp
    have h6 : sliceTo (a ++ '.' :: b) (strings.IndexByte a '.')
        = .ok (a.take (strings.IndexByte a '.').toNat) := by
      have hle : strings.IndexByte a '.' ≤ (a.length : Int) + ((b.length : Int) + 1) := by
        omega
      have h0 : 0 ≤ strings.IndexByte a '.' := by omega
      simp [sliceTo, h0, hle, List.take_append_of_le_length hn]
    simp only [hi, if_true, h5, h6, Except.bind_ok_eq]
    rfl
  · simp only [hi, if_false, Except.bind_ok_eq]
    rfl

/-- C19: for a package name `p` without `.`, `RetrieveCallerInfo` classifies
both `p.init.0` and `p.init` as package `p`, structure `""` and function
`init`. -/
theorem RetrieveCallerInfo_init (p file : Str) (line : Int) (hp : '.' ∉ p) :
    RetrieveCallerInfo (some (p ++ ".init.0".toList, file, line))
      = .ok (some ⟨p, [], "init".toList, file, line⟩) ∧
    RetrieveCallerInfo (some (p ++ ".init".toList, file, line))
      = .ok (some ⟨p, [], "init".toList, file, line⟩) := by
  constructor
  · have e : p ++ ".init.0".toList = (p ++ '.' :: "init".toList) ++ '.' :: "0".toList := by
      simp
    have hidx : strings.IndexByte (p ++ '.' :: "init".toList) '.' = p.length :=
      strings.IndexByte_append_sep p _ '.' hp
    have hpos : (p.length : Int) > -1 := by omega
    have ht : strings.Trim "0".toList " ".toList = "0".toList := by decide
    rw [e, RetrieveCallerInfo_cut _ _ file line (by decide) (by decide), hidx, ht]
    simp [hpos]
  · have e : p ++ ".init".toList = p ++ '.' :: "init".toList := by simp
    have hidx : strings.IndexByte p '.' = -1 := strings.IndexByte_of_not_mem hp
    have ht : strings.Trim "init".toList " ".toList = "init".toList := by decide
    rw [e, RetrieveCallerInfo_cut _ _ file line (by decide) (by decide), hidx, ht]
    simp

/-- Witness of `RetrieveCallerInfo_init` at the package `main`. -/
theorem RetrieveCallerInfo_init_witness :
    '.' ∉ "main".toList ∧
    RetrieveCallerInfo (some ("main.init.0".toList, "main.go".toList, 12))
      = .ok (some ⟨"main".toList, [], "init".toList, "main.go".toList, 12⟩) ∧
    RetrieveCallerInfo (some ("main.init".toList, "main.go".toList, 12))
      = .ok (some ⟨"main".toList, [], "init".toList, "main.go".toList, 12⟩) :=
  ⟨by decide, RetrieveCallerInfo_init "main".toList "main.go".toList 12 (by decide)⟩

/-- C20 (the code at the failing input): the function `Info` of the package
`github.com/lordofscripts/goapp/app/mlog` is classified as package `github`
and structure `com/lordofscripts/goapp/app/mlog`; `RetrievePackageInfo` gives
the package `github` as well. -/
theorem RetrieveCallerInfo_dotted_host :
    RetrieveCallerInfo
        (some ("github.com/lordofscripts/goapp/app/mlog.Info".toList, "mlog.go".toList, 12))
      = .ok (some ⟨"github".toList, "com/lordofscripts/goapp/app/mlog".toList, "Info".toList,
          "mlog.go".toList, 12⟩) ∧
    RetrievePackageInfo
        (some ("github.com/lordofscripts/goapp/app/mlog.Info".toList, "mlog.go".toList, 12))
      = .ok (some ⟨"github".toList, "mlog.go".toList⟩) := by
  decide

end mlog

/-! ## Claims about loading and saving the rules, and about the one gate -/

theorem lookup_filter_ne {V : Type} (m : List (Str × V)) (k k' : Str) (h : k' ≠ k) :
    (m.filter (fun e => e.1 != k)).lookup k' = m.lookup k' := by
  induction m with
  | nil => rfl
  | cons e es ih =>
    obtain ⟨a, b⟩ := e
    by_cases ha : a = k
    · subst ha
      have hk : (k' == a) = false := by simpa using h
      simp [List.filter, List.lookup, hk, ih]
    · have hne : (a != k) = true := by simpa using ha
      simp only [List.filter, hne, List.lookup, ih]

theorem lookup_mapSet_self {V : Type} (m : List (Str × V)) (k : Str) (v : V) :
    (mapSet m k v).lookup k = some v := by
  simp [mapSet, List.lookup]

theorem lookup_mapSet_ne {V : Type} (m : List (Str × V)) (k k' : Str) (v : V) (h : k' ≠ k) :
    (mapSet m k v).lookup k' = m.lookup k' := by
  have hk : (k' == k) = false := by simpa using h
  simp only [mapSet, List.lookup, hk]
  exact lookup_filter_ne m k k' h

namespace logx

/-- After `SaveFilters` on a map that is not `nil` the gate is the gate before
with the two map writes. -/
theorem SaveFilters_gate (l : LogGate) (h : Host) :
    (l.SaveFilters h false).1 =
      { l with
        Filters := mapSet (mapSet l.Filters "main".toList seedMain)
          "lordofscripts/demo".toList seedDemo } := by
  unfold LogGate.SaveFilters
  simp only [Bool.false_eq_true, if_false]
  split
  · rfl
  · split
    · rfl
    · split <;> rfl

/-- On a `nil` map `SaveFilters` aborts at its first map write and leaves the
gate as it is. -/
theorem SaveFilters_nil (l : LogGate) (h : Host) :
    l.SaveFilters h true = (l, .error .nilMap) := by
  simp [LogGate.SaveFilters]

/-- When the gate can be encoded, the name of the filter file is known and the
file can be created, `SaveFilters` writes to that file the encoding of the gate
as it is after the two map writes, kept rules included. -/
theorem SaveFilters_file (l : LogGate) (h : Host) (file buffer : Str)
    (henc : h.encode (l.SaveFilters h false).1 = .ok buffer)
    (hfile : (l.SaveFilters h false).1.getLogFilterFile h = .ok file)
    (hcreate : h.create file = true) :
    (l.SaveFilters h false).2 = .ok (some (file, buffer)) := by
  rw [SaveFilters_gate] at henc hfile
  unfold LogGate.SaveFilters
  simp only [Bool.false_eq_true, if_false, henc, hfile, hcreate, if_true]

/-- In the ready state a call returns the stored pointer and changes nothing. -/
theorem GetLogGateInstance_ready (h : Host) (names : Option (List Str)) (st : GateState)
    (hr : st.initializedLogGate = 1) :
    GetLogGateInstance h names st = (st, .ok st.instanceLogGate) := by
  simp [GetLogGateInstance, hr]

/-- In the ready state a whole series of calls changes nothing, and every call
returns the stored pointer. -/
theorem callSeries_ready (st : GateState) (hr : st.initializedLogGate = 1)
    (calls : List (Host × Option (List Str))) :
    (callSeries st calls).1 = st ∧
    ∀ x ∈ (callSeries st calls).2, x = .ok st.instanceLogGate := by
  induction calls with
  | nil => simp [callSeries]
  | cons c cs ih =>
    obtain ⟨h, names⟩ := c
    simp only [callSeries, GetLogGateInstance_ready h names st hr]
    refine ⟨ih.1, ?_⟩
    intro x hx
    rcases List.mem_cons.1 hx with rfl | hx
    · rfl
    · exact ih.2 x hx

/-- A first call that returns has constructed the gate and left the state
ready. -/
theorem GetLogGateInstance_start (h : Host) (names : Option (List Str)) (st1 : GateState)
    (r : Option LogGate) (hfirst : GetLogGateInstance h names GateState.start = (st1, .ok r)) :
    st1.initializedLogGate = 1 ∧ ∃ g, r = some g ∧ st1.instanceLogGate = some g := by
  unfold GetLogGateInstance at hfirst
  simp only [GateState.start, Nat.zero_ne_one, if_false, and_self, if_true] at hfirst
  split at hfirst
  · simp at hfirst
  · split at hfirst
    · simp at hfirst
    · simp only [Prod.mk.injEq, Except.ok.injEq] at hfirst
      obtain ⟨h1, h2⟩ := hfirst
      subst h1
      exact ⟨rfl, _, h2.symm, rfl⟩

/-- C21 (as stated, refuted): a gate that holds a rule for `main` still holds
it after a load that cannot read the file, so `main` is not suppressed; and
when the configuration directory is not known the load aborts. -/
theorem LoadFilters_failure_refuted :
    ((gateOf [("main".toList, seedMain)]).LoadFilters hostNoFile).2
      = .ok (some "no such file".toList) ∧
    ((gateOf [("main".toList, seedMain)]).LoadFilters hostNoFile).1.Filters
      = [("main".toList, seedMain)] ∧
    ((gateOf [("main".toList, seedMain)]).LoadFilters hostNoFile).1.IsFiltered "main".toList
      = false ∧
    ((gateOf [("main".toList, seedMain)]).LoadFilters hostNoConfigDir).2
      = .error (.explicit "$HOME is not defined") := by
  decide

/-- C21 (amended): when the name of the filter file is known and reading the
file fails, or its content is not valid JSON, `LoadFilters` returns the error
without aborting and leaves the gate as it was; so for a gate whose rule
mapping is empty `IsFiltered(m)` is `true` for every module `m` afterwards. -/
theorem LoadFilters_failure (l : LogGate) (h : Host) (file : Str)
    (hfile : l.getLogFilterFile h = .ok file)
    (hfail : (∃ err, h.readFile file = .error err) ∨
      ∃ data err, h.readFile file = .ok data ∧ h.unmarshal data = .error err) :
    (∃ err, l.LoadFilters h = (l, .ok (some err))) ∧
    (l.Filters = [] → ∀ m, (l.LoadFilters h).1.IsFiltered m = true) := by
  have hres : ∃ err, l.LoadFilters h = (l, .ok (some err)) := by
    rcases hfail with ⟨err, hr⟩ | ⟨data, err, hr, hu⟩
    · exact ⟨err, by simp [LogGate.LoadFilters, hfile, hr]⟩
    · exact ⟨err, by simp [LogGate.LoadFilters, hfile, hr, hu]⟩
  refine ⟨hres, ?_⟩
  intro hempty m
  obtain ⟨err, he⟩ := hres
  rw [he]
  simp [LogGate.IsFiltered, mapGet, hempty]

/-- Witness of `LoadFilters_failure`: a new gate on a host where the file
cannot be read. -/
theorem LoadFilters_failure_witness :
    (∃ err, newLogGate.LoadFilters hostNoFile = (newLogGate, .ok (some err))) ∧
    (newLogGate.Filters = [] →
      ∀ m, (newLogGate.LoadFilters hostNoFile).1.IsFiltered m = true) :=
  LoadFilters_failure newLogGate hostNoFile "/home/u/.config//demo.logfilter".toList
    (by decide) (Or.inl ⟨"no such file".toList, rfl⟩)

/-- C22 (as stated, refuted): a rule for the module `other` is still in the
mapping after `SaveFilters`, next to the two seed entries. -/
theorem SaveFilters_keeps_rules_refuted :
    ((gateOf [("other".toList, ⟨"info".toList, []⟩)]).SaveFilters hostNoFile false).1.Filters
      = [("lordofscripts/demo".toList, seedDemo), ("main".toList, seedMain),
          ("other".toList, ⟨"info".toList, []⟩)] := by
  decide

/-- C22 (amended): for a gate whose rule mapping is not `nil`, after
`SaveFilters` the rule mapping holds the two seed entries, `main` with `debug`
and no `Specifically`, `lordofscripts/demo` with `info` and `StructA,StructB`,
and the rule of every other module is what it was before the call. -/
theorem SaveFilters_rules (l : LogGate) (h : Host) :
    (l.SaveFilters h false).1.Filters.lookup "main".toList = some ⟨"debug".toList, []⟩ ∧
    (l.SaveFilters h false).1.Filters.lookup "lordofscripts/demo".toList
      = some ⟨"info".toList, "StructA,StructB".toList⟩ ∧
    ∀ k : Str, k ≠ "main".toList → k ≠ "lordofscripts/demo".toList →
      (l.SaveFilters h false).1.Filters.lookup k = l.Filters.lookup k := by
  rw [SaveFilters_gate]
  refine ⟨?_, ?_, ?_⟩
  · show (mapSet (mapSet l.Filters "main".toList seedMain) "lordofscripts/demo".toList
      seedDemo).lookup "main".toList = _
    rw [lookup_mapSet_ne _ _ _ _ (by decide), lookup_mapSet_self]
    rfl
  · show (mapSet (mapSet l.Filters "main".toList seedMain) "lordofscripts/demo".toList
      seedDemo).lookup "lordofscripts/demo".toList = _
    rw [lookup_mapSet_self]
    rfl
  · intro k h1 h2
    show (mapSet (mapSet l.Filters "main".toList seedMain) "lordofscripts/demo".toList
      seedDemo).lookup k = _
    rw [lookup_mapSet_ne _ _ _ _ h2, lookup_mapSet_ne _ _ _ _ h1]

/-- Witness of `SaveFilters_rules`: the rule of the module `other` is kept. -/
theorem SaveFilters_rules_witness :
    ((gateOf [("other".toList, ⟨"info".toList, []⟩)]).SaveFilters hostNoFile
        false).1.Filters.lookup "other".toList
      = (gateOf [("other".toList, ⟨"info".toList, []⟩)]).Filters.lookup "other".toList :=
  (SaveFilters_rules (gateOf [("other".toList, ⟨"info".toList, []⟩)]) hostNoFile).2.2
    "other".toList (by decide) (by decide)

/-- When a call of `GetLogGateInstance` in the starting state returns, it has
constructed the gate and set the state ready; every call of a series that
follows, whatever the host answers and whatever names it is given, returns
that same gate and leaves the package variables, and with them the gate, as
they are. -/
theorem GetLogGateInstance_once (h : Host) (names : Option (List Str)) (st1 : GateState)
    (r : Option LogGate) (hfirst : GetLogGateInstance h names GateState.start = (st1, .ok r))
    (later : List (Host × Option (List Str))) :
    st1.initializedLogGate = 1 ∧
    (∃ g, r = some g ∧ st1.instanceLogGate = some g) ∧
    (callSeries st1 later).1 = st1 ∧
    ∀ x ∈ (callSeries st1 later).2, x = .ok r := by
  obtain ⟨hr, g, hg, hi⟩ := GetLogGateInstance_start h names st1 r hfirst
  obtain ⟨hs, hx⟩ := callSeries_ready st1 hr later
  refine ⟨hr, ⟨g, hg, hi⟩, hs, ?_⟩
  intro x hxm
  rw [hx x hxm, hi, hg]

/-- An instance of `GetLogGateInstance_once`: a first call without names, then
a call with one name and a call on another host. -/
theorem GetLogGateInstance_once_witness :
    (callSeries ⟨1, some ⟨"demo".toList, [], [], []⟩⟩
        [(hostNoFile, some ["other".toList]), (hostNoConfigDir, none)]).1
      = ⟨1, some ⟨"demo".toList, [], [], []⟩⟩ ∧
    ∀ x ∈ (callSeries ⟨1, some ⟨"demo".toList, [], [], []⟩⟩
        [(hostNoFile, some ["other".toList]), (hostNoConfigDir, none)]).2,
      x = .ok (some ⟨"demo".toList, [], [], []⟩) :=
  (GetLogGateInstance_once hostNoFile none ⟨1, some ⟨"demo".toList, [], [], []⟩⟩
    (some ⟨"demo".toList, [], [], []⟩) (by decide)
    [(hostNoFile, some ["other".toList]), (hostNoConfigDir, none)]).2.2

/-- A call in the starting state without names, or with two names or more,
constructs the gate from `newLogGate` with the names chosen, stores 1, loads
the filters into it and returns it, unless the load aborts. -/
theorem GetLogGateInstance_constructs (h : Host) :
    GetLogGateInstance h none GateState.start
      = (⟨1, some (LogGate.LoadFilters ⟨h.base h.args0, [], [], []⟩ h).1⟩,
          (LogGate.LoadFilters ⟨h.base h.args0, [], [], []⟩ h).2.map
            (fun _ => some (LogGate.LoadFilters ⟨h.base h.args0, [], [], []⟩ h).1)) ∧
    ∀ (name0 name1 : Str) (more : List Str),
      GetLogGateInstance h (some (name0 :: name1 :: more)) GateState.start
        = (⟨1, some (LogGate.LoadFilters
              ⟨if name0 ≠ [] then name0 else h.base h.args0, [], [],
                if name1 ≠ [] then name1 else []⟩ h).1⟩,
            (LogGate.LoadFilters
              ⟨if name0 ≠ [] then name0 else h.base h.args0, [], [],
                if name1 ≠ [] then name1 else []⟩ h).2.map
              (fun _ => some (LogGate.LoadFilters
                ⟨if name0 ≠ [] then name0 else h.base h.args0, [], [],
                  if name1 ≠ [] then name1 else []⟩ h).1)) := by
  constructor
  · rcases hl : LogGate.LoadFilters ⟨h.base h.args0, [], [], []⟩ h with ⟨g, loaded⟩
    cases loaded <;>
      simp [GetLogGateInstance, GateState.start, newLogGate, hl, pure, Except.pure, Except.map]
  · intro name0 name1 more
    rcases hl : LogGate.LoadFilters
        ⟨if name0 ≠ [] then name0 else h.base h.args0, [], [],
          if name1 ≠ [] then name1 else []⟩ h with ⟨g, loaded⟩
    simp only [ne_eq, ite_not] at hl
    cases loaded <;>
      simp [GetLogGateInstance, GateState.start, newLogGate, indexAt, hl, pure, Except.pure,
        Except.map, bind, Except.bind]

/-- C24 (the code at the failing input): a call with exactly one name aborts
and leaves the gate uninitialized, so that the series goes on as if from the
start; in the series of a call with the name `myapp`, a call without names and
a call with two names, on a host whose filter file holds a rule for `main`, it
is the second call that constructs the gate and loads the rule, and the third
returns that gate. -/
theorem GetLogGateInstance_second_call_constructs :
    (∀ (h : Host) (name : Str) (rest : List (Host × Option (List Str))),
      callSeries GateState.start ((h, some [name]) :: rest)
        = ((callSeries GateState.start rest).1,
            .error .indexRange :: (callSeries GateState.start rest).2)) ∧
    callSeries GateState.start
        [(hostWithFile, some ["myapp".toList]), (hostWithFile, none),
          (hostWithFile, some ["other".toList, "grp".toList])]
      = (⟨1, some ⟨"demo".toList, [], [("main".toList, seedMain)], []⟩⟩,
          [.error .indexRange,
            .ok (some ⟨"demo".toList, [], [("main".toList, seedMain)], []⟩),
            .ok (some ⟨"demo".toList, [], [("main".toList, seedMain)], []⟩)]) := by
  constructor
  · intro h name rest
    rfl
  · decide

/-- C30 (the code at the failing input): a first call with exactly one name
aborts on the index `names[1]`, whatever the host and the name, and constructs
nothing; so does a first call with an empty, non-nil list of names, on
`names[0]`. -/
theorem GetLogGateInstance_one_name_aborts :
    (∀ (h : Host) (name : Str),
      GetLogGateInstance h (some [name]) GateState.start
        = (GateState.start, .error .indexRange)) ∧
    ∀ h : Host,
      GetLogGateInstance h (some []) GateState.start = (GateState.start, .error .indexRange) := by
  constructor
  · intro h name
    rfl
  · intro h
    rfl

/-- C26 (the code at the failing input): with the rule that allows the type
`Worker` of the package `pkg`, the value-receiver method `pkg.Worker.Run` is
reported as not allowed, since the gate is asked about the package
`pkg.Worker`; the pointer-receiver method `pkg.(*Worker).Run` is allowed. -/
theorem getCallerFlexFiltered_value_receiver :
    (gateOf [("pkg".toList, ⟨"info".toList, "Worker".toList⟩)]).IsFilteredObject
        "pkg".toList "Worker".toList = false ∧
    getCallerFlexFiltered (gateOf [("pkg".toList, ⟨"info".toList, "Worker".toList⟩)])
        (some "pkg.Worker.Run".toList)
      = .ok ([], [], false) ∧
    getCallerFlexFiltered (gateOf [("pkg.Worker".toList, ⟨"info".toList, []⟩)])
        (some "pkg.Worker.Run".toList)
      = .ok ("pkg.Worker:Run()".toList, "pkg.Worker".toList, true) ∧
    getCallerFlexFiltered (gateOf [("pkg".toList, ⟨"info".toList, "Worker".toList⟩)])
        (some "pkg.(*Worker).Run".toList)
      = .ok ("pkg:Worker.Run()".toList, "pkg".toList, true) := by
  decide

/-- C27 (the code at the failing input): for the value-receiver method
`main.Worker.Run` the location is `main▪Worke⯈Run()`, the type name without
its last letter; for the pointer-receiver method `main.(*Worker).Run` it is
`main▪Worker🡪Run()`. -/
theorem GetNestingLevel_value_receiver :
    GetNestingLevel ["main.Worker.Run".toList, "main.main".toList]
      = .ok (1, "main▪Worke⯈Run()".toList) ∧
    GetNestingLevel ["main.(*Worker).Run".toList, "main.main".toList]
      = .ok (1, "main▪Worker🡪Run()".toList) := by
  decide

end logx

/-! ## The aborts of `getNames` -/

namespace strings

theorem Split_length (s : Str) (c : Char) : ((Split s c).length : Int) = Count s c + 1 := by
  induction s with
  | nil => rfl
  | cons x xs ih =>
    by_cases hx : x = c
    · subst hx
      simp only [Split, if_true, List.length_cons, Nat.cast_add, Nat.cast_one, ih,
        Count_cons_self]
    · have hc : Count (x :: xs) c = Count xs c := by
        simp [Count, List.count_cons, hx]
      cases hs : Split xs c with
      | nil =>
        have hnn : 0 ≤ Count xs c := Int.ofNat_nonneg _
        rw [hs] at ih
        simp only [List.length_nil, Nat.cast_zero] at ih
        omega
      | cons piece rest =>
        rw [hs] at ih
        simp only [Split, hx, if_false, hs, hc]
        simpa using ih

theorem LastIndex_nonneg_of_mem {s : Str} {c : Char} (h : c ∈ s) : 0 ≤ LastIndex s c := by
  induction s with
  | nil => simp at h
  | cons x xs ih =>
    have hb := LastIndex_bounds xs c
    simp only [LastIndex]
    split_ifs with h1 h2
    · omega
    · omega
    · exfalso
      rcases List.mem_cons.1 h with e | e
      · exact h2 e.symm
      · exact h1 (ih e)

end strings

namespace logx

/-- A run of characters of a class holds no character outside the class. -/
theorem not_mem_takeWhile (p : Char → Bool) (s : Str) (c : Char) (hc : p c = false) :
    c ∉ s.takeWhile p := by
  intro h
  have := List.mem_takeWhile_imp h
  simp [hc] at this

/-- The pattern of `getNames` removes exactly one `.`. -/
theorem hostMatch_count (s rest : Str) (h : hostMatch s = some rest) :
    strings.Count s '.' = strings.Count rest '.' + 1 := by
  have hs : s = s.takeWhile isDashOrWord ++ s.dropWhile isDashOrWord :=
    (List.takeWhile_append_dropWhile _ _).symm
  have h1 : '.' ∉ s.takeWhile isDashOrWord := not_mem_takeWhile _ _ _ (by decide)
  unfold hostMatch at h
  split_ifs at h
  split at h
  · rename_i r hr
    have hrr : r = r.takeWhile isLetter ++ r.dropWhile isLetter :=
      (List.takeWhile_append_dropWhile _ _).symm
    have h2 : '.' ∉ r.takeWhile isLetter := not_mem_takeWhile _ _ _ (by decide)
    split_ifs at h
    split at h
    · rename_i rest2 hr2
      simp only [Option.some.injEq] at h
      subst h
      rw [hs, hr, strings.Count_append, strings.Count_cons_self, hrr, hr2,
        strings.Count_append, strings.Count_of_not_mem h1, strings.Count_of_not_mem h2]
      simp [strings.Count, List.count_cons]
    · simp at h
  · simp at h

/-- What the pattern leaves has at most one `.` less. -/
theorem cleanHost_count (fq : Str) :
    strings.Count fq '.' ≤ strings.Count (cleanHost fq) '.' + 1 := by
  unfold cleanHost
  cases h : hostMatch fq with
  | none => simp
  | some rest =>
    have := hostMatch_count fq rest h
    simp only [Option.getD_some]
    omega

/-- The slice `s[idx:]` at the last occurrence of a character of `s`. -/
theorem sliceFrom_LastIndex_of_mem (s : Str) (c : Char) (h : c ∈ s) :
    sliceFrom s (strings.LastIndex s c) = .ok (s.drop (strings.LastIndex s c).toNat) := by
  have h0 := strings.LastIndex_nonneg_of_mem h
  have hb := strings.LastIndex_bounds s c
  have hle : strings.LastIndex s c ≤ (s.length : Int) := by omega
  simp [sliceFrom, h0, hle]

/-- C23: for a name with more than two `.` whose first segment, once the
leading `host.tld/` is removed, holds a `/`, `getNames` returns a triple when
the normalised name splits on `.` into three or four segments, and aborts
with its explicit `panic` for every other number of segments. -/
theorem getNames_aborts_iff (fq seg0 : Str) (rest : List Str)
    (hcnt : 2 < strings.Count fq '.')
    (hparts : strings.Split (cleanHost fq) '.' = seg0 :: rest) (hslash : '/' ∈ seg0) :
    (getNames fq = .error (.explicit "WTF") ↔
      ((strings.Split (cleanHost fq) '.').length ≠ 3 ∧
        (strings.Split (cleanHost fq) '.').length ≠ 4)) ∧
    (((strings.Split (cleanHost fq) '.').length = 3 ∨
        (strings.Split (cleanHost fq) '.').length = 4) →
      ∃ r, getNames fq = .ok r) := by
  have h1 : ¬ (strings.Count fq '.' = 1) := by omega
  have h2 : ¬ (strings.Count fq '.' = 2) := by omega
  have hlen := strings.Split_length (cleanHost fq) '.'
  have hc := cleanHost_count fq
  have hpk := sliceFrom_LastIndex_of_mem seg0 '/' hslash
  rw [hparts] at hlen
  rcases rest with _ | ⟨seg1, _ | ⟨seg2, _ | ⟨seg3, _ | ⟨seg4, more⟩⟩⟩⟩
  · simp only [List.length_cons, List.length_nil] at hlen
    omega
  · simp only [List.length_cons, List.length_nil] at hlen
    omega
  · simp [getNames, h1, h2, hparts, indexAt, hpk, Except.bind_ok_eq, bind, Except.bind, pure,
      Except.pure]
  · simp [getNames, h1, h2, hparts, indexAt, hpk, Except.bind_ok_eq, bind, Except.bind, pure,
      Except.pure]
  · simp [getNames, h1, h2, hparts, indexAt, hpk, Except.bind_ok_eq, bind, Except.bind, pure,
      Except.pure]

/-- Witness of `getNames_aborts_iff`: the doubly nested closure
`a/b.(*T).M.func1.func2` has five segments and aborts. -/
theorem getNames_aborts_iff_witness :
    getNames "a/b.(*T).M.func1.func2".toList = .error (.explicit "WTF") :=
  (getNames_aborts_iff "a/b.(*T).M.func1.func2".toList "a/b".toList
    ["(*T)".toList, "M".toList, "func1".toList, "func2".toList]
    (by decide) (by decide) (by decide)).1.2 (by decide)

end logx

/-! ## Claims about the levels of `mlog` -/

namespace mlog

/-- C28: with the environment variable absent the minimum level is
`LevelError`; the six levels are in the order Trace, Debug, Info, Warning,
Error, Fatal; and with that minimum level `Error`, `Errorf`, `ErrorT`,
`ErrorE`, `Fatal`, `Fatalf` and `FatalT` make their logger call while `Warn`,
`Warnf` and `WarnT` make none. -/
theorem default_level_emits :
    init [] = LevelError ∧
    (LevelTrace < LevelDebug ∧ LevelDebug < LevelInfo ∧ LevelInfo < LevelWarning ∧
      LevelWarning < LevelError ∧ LevelError < LevelFatal) ∧
    ∀ (format message err : Str) (v : List Str) (exitCode : Int),
      Error (init []) v = some (.Print (tagERROR :: v)) ∧
      Errorf (init []) format v = some (.Printf (tagERROR ++ format) v) ∧
      ErrorT (init []) message v = some (.Print [tagged tagERROR message v]) ∧
      ErrorE (init []) err = some (.Println [tagERROR, err]) ∧
      Fatal (init []) exitCode v = (some (.Print (tagFATAL :: v)), exitCode) ∧
      Fatalf (init []) exitCode format v = (some (.Printf (tagFATAL ++ format) v), exitCode) ∧
      FatalT (init []) exitCode message v
        = (some (.Print [tagged tagFATAL message v]), exitCode) ∧
      Warn (init []) v = none ∧
      Warnf (init []) format v = none ∧
      WarnT (init []) message v = none := by
  refine ⟨rfl, by decide, ?_⟩
  intro format message err v exitCode
  have hi : init [] = 15 := rfl
  simp [hi, Error, Errorf, ErrorT, ErrorE, Fatal, Fatalf, FatalT, Warn, Warnf, WarnT,
    LevelWarning, LevelError, LevelFatal]

/-- C29: `parseLevel` gives the level that the table of names gives for the
text without its leading and trailing blanks and tabs and in lower case; so
it depends on that name only, `warn` and `warning` both give `LevelWarning`,
and the empty text and a misspelt name give `LevelFatal`. -/
theorem parseLevel_table :
    (∀ s : Str, parseLevel s = levelTable (levelName s)) ∧
    (∀ s t : Str, levelName s = levelName t → parseLevel s = parseLevel t) ∧
    parseLevel "trace".toList = LevelTrace ∧
    parseLevel "debug".toList = LevelDebug ∧
    parseLevel "info".toList = LevelInfo ∧
    parseLevel "warn".toList = LevelWarning ∧
    parseLevel "warning".toList = LevelWarning ∧
    parseLevel "error".toList = LevelError ∧
    parseLevel "fatal".toList = LevelFatal ∧
    parseLevel " \t WaRnInG\t".toList = LevelWarning ∧
    parseLevel [] = LevelFatal ∧
    parseLevel "eror".toList = LevelFatal := by
  have hmain : ∀ s : Str, parseLevel s = levelTable (levelName s) := by
    intro s
    have e1 : "trace".toList.map Char.toLower = "trace".toList := by decide
    have e2 : "debug".toList.map Char.toLower = "debug".toList := by decide
    have e3 : "info".toList.map Char.toLower = "info".toList := by decide
    have e4 : "warning".toList.map Char.toLower = "warning".toList := by decide
    have e5 : "warn".toList.map Char.toLower = "warn".toList := by decide
    have e6 : "error".toList.map Char.toLower = "error".toList := by decide
    have e7 : "fatal".toList.map Char.toLower = "fatal".toList := by decide
    unfold parseLevel levelTable levelName strings.EqualFold
    simp only [e1, e2, e3, e4, e5, e6, e7, beq_iff_eq]
    split_ifs <;> simp_all
  refine ⟨hmain, ?_, by decide, by decide, by decide, by decide, by decide, by decide,
    by decide, by decide, by decide, by decide⟩
  intro s t h
  rw [hmain s, hmain t, h]

/-- Witness of `parseLevel_table`: `Error` and ` error ` have the same name
and the same level. -/
theorem parseLevel_table_witness :
    levelName "Error".toList = levelName " error ".toList ∧
    parseLevel "Error".toList = parseLevel " error ".toList :=
  ⟨by decide, parseLevel_table.2.1 "Error".toList " error ".toList (by decide)⟩

end mlog
